import Mathlib

/-!
Verification of the pyHOK pyRevit scripts against their natural-language
specification.

The repository is a collection of IronPython scripts driving the Revit API.
This file gives a shallow embedding of the script logic that the claims are
about:

* Python strings are modelled as `List Char`; `str.strip`, `str.split()` and
  `str.split [on a separator]` are re-implemented structurally.
* Python floats are modelled exactly as rationals (`ℚ`) except where a claim
  is specifically about IEEE-754 rounding or truncation behaviour; for those
  claims a binary64 round-to-nearest-even model over `ℚ` is defined
  (`RN`, `pyDiv64`, `pyMul64`).  Overflow and subnormals are outside the
  range of every quantity involved and are not modelled.
* Python exceptions are modelled with `Option`: a `none` result of a `try`
  body corresponds to a raised exception caught by the `except` handler.
* Revit documents, families, parameters and transactions are modelled as
  explicit state; host-side behaviour that the repository does not implement
  (the performance-adviser rule engine, `.rfa` serialisation size) is
  modelled from the specification text and marked as such.
-/

/-! ## Python string primitives (on `List Char`) -/

/-- `str.strip()`: drop leading and trailing whitespace. -/
def pyStrip (s : List Char) : List Char :=
  ((s.dropWhile Char.isWhitespace).reverse.dropWhile Char.isWhitespace).reverse

/-- Accumulator worker for `str.split()` (split on whitespace runs,
discarding empty fields). -/
def splitWsAux : List Char → List Char → List (List Char)
  | [], acc => if acc.isEmpty then [] else [acc.reverse]
  | c :: cs, acc =>
    if c.isWhitespace then
      if acc.isEmpty then splitWsAux cs [] else acc.reverse :: splitWsAux cs []
    else splitWsAux cs (c :: acc)

/-- Python `s.split()` with no argument: fields separated by whitespace runs,
no empty fields. -/
def pySplitWs (s : List Char) : List (List Char) := splitWsAux s []

/-- Accumulator worker for `str.split(sep)` (empty fields kept). -/
def splitOnAux (sep : Char) : List Char → List Char → List (List Char)
  | [], acc => [acc.reverse]
  | c :: cs, acc =>
    if c = sep then acc.reverse :: splitOnAux sep cs []
    else splitOnAux sep cs (c :: acc)

/-- Python `s.split(sep)` for a one-character separator. -/
def pySplitOn (sep : Char) (s : List Char) : List (List Char) := splitOnAux sep s []

/-- Numeric value of a decimal digit character. -/
def digitVal (c : Char) : ℕ := c.toNat - Char.toNat '0'

/-- Value of a list of decimal digit characters, most significant first. -/
def digitsVal (cs : List Char) : ℕ := cs.foldl (fun a c => 10 * a + digitVal c) 0

/-- Exponent part of a Python float literal: `[]`, or `e`/`E` followed by an
optional sign and a nonempty digit run; anything else fails. -/
def pyFloatExp (m : ℚ) (cs : List Char) : Option ℚ :=
  match cs with
  | [] => some m
  | c :: rest =>
    if c = 'e' ∨ c = 'E' then
      let signed : Bool × List Char :=
        match rest with
        | '+' :: r => (false, r)
        | '-' :: r => (true, r)
        | r => (false, r)
      let ds := signed.2.takeWhile Char.isDigit
      let tail := signed.2.dropWhile Char.isDigit
      if ds.isEmpty ∨ ¬tail.isEmpty then none
      else
        let e : ℤ := (digitsVal ds : ℤ)
        some (m * (10 : ℚ) ^ (if signed.1 then -e else e))
    else none

/-- Mantissa of a Python float literal: `digits`, `digits.digits`, `digits.`
or `.digits`, then an optional exponent part. -/
def pyFloatBody (cs : List Char) : Option ℚ :=
  let ip := cs.takeWhile Char.isDigit
  let rest := cs.dropWhile Char.isDigit
  match rest with
  | '.' :: rest2 =>
    let fp := rest2.takeWhile Char.isDigit
    let rest3 := rest2.dropWhile Char.isDigit
    if ip.isEmpty ∧ fp.isEmpty then none
    else pyFloatExp ((digitsVal ip : ℚ) + (digitsVal fp : ℚ) / (10 : ℚ) ^ fp.length) rest3
  | _ => if ip.isEmpty then none else pyFloatExp (digitsVal ip : ℚ) rest

/-- Python `float(s)` on finite decimal literals, with the float value modelled
exactly as a rational.  `inf`/`nan` and digit-group underscores are treated as
parse failures; no claim concerns them. -/
def pyFloat (s : List Char) : Option ℚ :=
  let t := pyStrip s
  match t with
  | '+' :: r => pyFloatBody r
  | '-' :: r => (pyFloatBody r).map Neg.neg
  | r => pyFloatBody r

/-- Python float division; `none` models `ZeroDivisionError`. -/
def pyDivQ (a b : ℚ) : Option ℚ := if b = 0 then none else some (a / b)

/-! ## `parse_inch_fraction`
(`Replace Family.pushbutton/script.py`, lines 179–223.) -/

/-- The `try` body of `parse_inch_fraction`; `none` models a raised exception
reaching the `except` handler. -/
def parse_inch_fraction_try (s0 : List Char) : Option ℚ :=
  let s := pyStrip s0
  let parts := pySplitWs s
  match parts with
  | [p0, p1] => do
    let whole ← pyFloat p0
    if p1.contains '/' then
      match pySplitOn '/' p1 with
      | [ns, ds] => do
        let n ← pyFloat ns
        let d ← pyFloat ds
        let fr ← pyDivQ n d
        pure (whole + fr)
      | _ => none
    else do
      let fr ← pyFloat p1
      pure (whole + fr)
  | _ =>
    if s.contains '/' then
      match pySplitOn '/' s with
      | [ns, ds] => do
        let n ← pyFloat ns
        let d ← pyFloat ds
        let fr ← pyDivQ n d
        pure fr
      | _ => none
    else pyFloat s

/-- `parse_inch_fraction`: total; every parse failure yields `0.0`. -/
def parse_inch_fraction (s : List Char) : ℚ := (parse_inch_fraction_try s).getD 0

/-! ## Door Configurator
(`Doors.extension/.../Door Configurator.pushbutton/script.py` and `config.py`.) -/

/-- Shared-parameter GUID `PANEL WIDTH PANEL 1` (`script.py` line 119). -/
def pwGU : String := "318d67dd-1f5f-43fb-a3d0-32ac31f1babb"

/-- Shared-parameter GUID `PANEL HEIGHT` (`script.py` line 120). -/
def phGU : String := "3e7f226e-bc78-407c-982a-d45a405cd2a9"

/-- Shared-parameter GUID `PANEL 1` (`script.py` line 121). -/
def pnGU : String := "8e89f65d-3ed9-45c8-9808-8c315dedadce"

/-- Shared-parameter GUID `FRAME` (`script.py` line 122). -/
def pfGU : String := "b6930f0e-c0f5-432b-80ee-6c649f876cae"

/-- A value stored in a Revit family parameter, as the scripts use them:
a numeric value (internal units, feet), an element id, or a string. -/
inductive PValue where
  | num (v : ℚ)
  | elemId (i : ℕ)
  | strv (s : String)
  | unset
deriving DecidableEq, Repr

/-- A family parameter as seen through `FamilyManager.GetParameters()`:
shared flag, GUID (meaningful only when shared) and current-type value. -/
structure FamParam where
  isShared : Bool
  guid : String
  value : PValue
deriving DecidableEq, Repr

/-- `main`: `width = float(width) / 12.0` — inches-string to internal feet
(`script.py` lines 70–72). -/
def inches_to_feet (x : ℚ) : ℚ := x / 12

/-- One step of the shared-parameter loop of `save_as_new_family`
(`script.py` lines 141–166): a shared parameter whose GUID matches one of the
four known GUIDs is set; `PANEL 1` / `FRAME` are set to each symbol id of the
matching nested family in turn, so the last id wins. -/
def setSharedParam (width height : ℚ) (bamSyms famSyms : List ℕ)
    (p : FamParam) : FamParam :=
  if p.isShared then
    if p.guid = pwGU then { p with value := PValue.num width }
    else if p.guid = phGU then { p with value := PValue.num height }
    else if p.guid = pnGU then
      match bamSyms.getLast? with
      | some s => { p with value := PValue.elemId s }
      | none => p
    else if p.guid = pfGU then
      match famSyms.getLast? with
      | some s => { p with value := PValue.elemId s }
      | none => p
    else p
  else p

/-- The whole parameter pass of `save_as_new_family` over the family-manager
parameter set. -/
def save_as_new_family_setParams (ps : List FamParam) (width height : ℚ)
    (bamSyms famSyms : List ℕ) : List FamParam :=
  ps.map (setSharedParam width height bamSyms famSyms)

/-- `typeName = "{}x{}".format(int(width*12), int(height*12))` needs Python
`int()`: truncation toward zero (`script.py` line 107). -/
def pyInt (x : ℚ) : ℤ := if 0 ≤ x then ⌊x⌋ else -⌊-x⌋

/-- `FRAME_TO_PRIMITIVE_MAPPING` from `config.py` lines 21–45: frame code to
(prototype family, family-name suffix). -/
def FRAME_TO_PRIMITIVE_MAPPING : List (String × (String × String)) :=
  [ ("S01", ("DoorConfigPrimative02", "_SingleSwing_HOK_I")),
    ("S02", ("DoorConfigPrimative02", "_SingleSwing_HOK_I")),
    ("S03", ("DoorConfigPrimative02", "_SingleSwing_HOK_I")),
    ("D03A", ("DoorConfigPrimativeSidelite01", "_SingleSwing_HOK_I")),
    ("D03B", ("DoorConfigPrimativeSidelite01", "_SingleSwing_HOK_I")),
    ("D03C", ("DoorConfigPrimativeSidelite01", "_SingleSwing_HOK_I")),
    ("D04A", ("DoorConfigPrimativeSidelite01", "_SingleSwing_HOK_I")),
    ("D04B", ("DoorConfigPrimativeSidelite01", "_SingleSwing_HOK_I")),
    ("D04C", ("DoorConfigPrimativeSidelite01", "_SingleSwing_HOK_I")),
    ("D05A", ("DoorConfigPrimativeSidelite01", "_SingleSwing_HOK_I")),
    ("D05B", ("DoorConfigPrimativeSidelite01", "_SingleSwing_HOK_I")),
    ("D05C", ("DoorConfigPrimativeSidelite01", "_SingleSwing_HOK_I")),
    ("D06A", ("DoorConfigPrimativeSidelite01", "_SingleSwing_HOK_I")),
    ("D06B", ("DoorConfigPrimativeSidelite01", "_SingleSwing_HOK_I")),
    ("D06C", ("DoorConfigPrimativeSidelite01", "_SingleSwing_HOK_I")),
    ("D07A", ("DoorConfigPrimativeSidelite01", "_SingleSwing_HOK_I")),
    ("D07B", ("DoorConfigPrimativeSidelite01", "_SingleSwing_HOK_I")),
    ("D07C", ("DoorConfigPrimativeSidelite01", "_SingleSwing_HOK_I")),
    ("S21", ("DoorConfigPrimativeSidelite01", "_SingleSwing_HOK_I")),
    ("S22", ("DoorConfigPrimativeSidelite01", "_SingleSwing_HOK_I")),
    ("DS1", ("DoorConfigPrimativeSingleSliding02", "_SingleSliding_HOK_I")),
    ("S23", ("DoorConfigPrimativeSidelite01", "_SingleSwing_HOK_I")),
    ("D02", ("DoorConfigPrimativeDouble01", "_DoubleSwing_HOK_I")) ]

/-- Outcome of one door-generation input in the batch generator. -/
inductive GenResult where
  | generated (primitive : String) (suffix : String)
  | skippedLogged (msg : String)
deriving DecidableEq, Repr

/-- Modelled from the spec: the code that consumes `FRAME_TO_PRIMITIVE_MAPPING`
is not under `src/` (`config.py` only declares the table).  Per the spec,
"for all frame codes present in the mapping table, the generator selects the
exact named prototype family; for codes absent from the table, generation is
skipped with a logged message, never silently substituting a default". -/
def selectPrototype (frameCode : String) : GenResult :=
  match FRAME_TO_PRIMITIVE_MAPPING.lookup frameCode with
  | some pr => GenResult.generated pr.1 pr.2
  | none => GenResult.skippedLogged
      ("No primitive mapping for frame type " ++ frameCode ++ "; skipping.")

/-! ## Batch CSV ingestion (spec-modelled)
`config.py` line 7 declares `CSV_FILE_PATH`; the reading code is not under
`src/`. -/

/-- A door-configuration CSV row: panel type, frame type, width, height. -/
structure DoorConfig where
  panelType : String
  frameType : String
  widthIn : ℚ
  heightIn : ℚ
deriving DecidableEq, Repr

/-- Modelled from the spec: parse one CSV row into a door configuration.
A row is malformed (skipped) when it is empty, has fewer than four fields,
has an empty panel or frame field, or a width/height that does not parse as a
Python float. -/
def parseRow (row : List String) : Option DoorConfig :=
  match row with
  | pt :: ft :: w :: h :: _ =>
    if pt = "" ∨ ft = "" then none
    else do
      let wv ← pyFloat w.toList
      let hv ← pyFloat h.toList
      pure ⟨pt, ft, wv, hv⟩
  | _ => none

/-- Modelled from the spec: "row order in the CSV determines processing order;
malformed/empty rows are skipped without aborting the batch."  Each parsed
row is processed in file order; a row that fails to parse is skipped and the
rest of the batch continues. -/
def processBatch (process : DoorConfig → GenResult) :
    List (List String) → List GenResult
  | [] => []
  | row :: rest =>
    match parseRow row with
    | some cfg => process cfg :: processBatch process rest
    | none => processBatch process rest

/-! ## Family Purge
(`Family Purge.pushbutton/script.py`.)  A family document is modelled as a
list of elements, each carrying its Revit class and the element ids it
references, plus the family-manager type list and current type. -/

/-- Revit element classes the purge collectors distinguish. -/
inductive RClass where
  | importInstance
  | imageInstance
  | imageType
  | familyInstance
  | familySymbol
  | material
  | fillPattern
  | appearanceAsset
  | filledRegionType
  | otherNonType
  | otherType
deriving DecidableEq, Repr

/-- `WhereElementIsElementType`: which model classes are element types. -/
def RClass.isElementType : RClass → Bool
  | RClass.imageType => true
  | RClass.familySymbol => true
  | RClass.filledRegionType => true
  | RClass.otherType => true
  | _ => false

/-- An element of a family document: id, class, and the references the purge
collectors read (`FamilyInstance.Symbol` / image type id in `symbolId`,
`Material.Name` in `name`, `GetMaterialIds` in `materialIds`, the four
material pattern ids or `FilledRegionType.FillPatternId` in `patternIds`,
`Material.AppearanceAssetId` in `assetId`). -/
structure RElem where
  id : ℕ
  cls : RClass
  symbolId : Option ℕ
  name : String
  materialIds : List ℕ
  patternIds : List ℕ
  assetId : Option ℕ
deriving DecidableEq, Repr

/-- A family document as the purge tool sees it: its elements, the ids of
`FamilyManager.Types`, and the id of `FamilyManager.CurrentType` (`none`
models a current type that is not a `FamilyType`). -/
structure FamilyDoc where
  elems : List RElem
  famTypes : List ℕ
  currentType : Option ℕ
deriving DecidableEq, Repr

/-- `delete_elements(fdoc, ids, label, is_cancelled)` (lines 238–266), with
no cancellation in flight and the bulk `fdoc.Delete` succeeding: removes
the listed ids and reports `len(ids)`; an empty list returns 0 at once. -/
def delete_elements (d : FamilyDoc) (ids : List ℕ) : FamilyDoc × ℕ :=
  if ids.isEmpty then (d, 0)
  else
    ({ elems := d.elems.filter (fun e => !ids.contains e.id),
       famTypes := d.famTypes.filter (fun t => !ids.contains t),
       currentType := match d.currentType with
         | some k => if ids.contains k then none else some k
         | none => none },
     ids.length)

/-- `purge_imports_and_images` (lines 269–274). -/
def purge_imports_and_images (d : FamilyDoc) : FamilyDoc × ℕ :=
  let toDel :=
    ((d.elems.filter (fun e => e.cls == RClass.importInstance)).map RElem.id)
    ++ ((d.elems.filter (fun e => e.cls == RClass.imageInstance)).map RElem.id)
    ++ ((d.elems.filter (fun e => e.cls == RClass.imageType)).map RElem.id)
  delete_elements d toDel

/-- The deletion list built by `purge_unused_family_types` (lines 277–295):
every family type except `CurrentType`; nothing when there are one or zero
types. -/
def purge_unused_family_types_toDel (d : FamilyDoc) : List ℕ :=
  if d.famTypes.length ≤ 1 then []
  else d.famTypes.filter (fun t =>
    match d.currentType with
    | some k => !(t == k)
    | none => true)

/-- `purge_unused_family_types` (lines 277–295). -/
def purge_unused_family_types (d : FamilyDoc) : FamilyDoc × ℕ :=
  if d.famTypes.length ≤ 1 then (d, 0)
  else delete_elements d (purge_unused_family_types_toDel d)

/-- `purge_unused_nested_symbols` (lines 298–314): a nested symbol is kept
iff some placed `FamilyInstance` uses it. -/
def purge_unused_nested_symbols (d : FamilyDoc) : FamilyDoc × ℕ :=
  let used := (d.elems.filter (fun e => e.cls == RClass.familyInstance)).filterMap RElem.symbolId
  let toDel := (d.elems.filter (fun e =>
    e.cls == RClass.familySymbol && !used.contains e.id)).map RElem.id
  delete_elements d toDel

/-- `_collect_used_material_ids` (lines 317–328): material ids referenced by
any non-type element. -/
def collect_used_material_ids (d : FamilyDoc) : List ℕ :=
  (d.elems.filter (fun e => !e.cls.isElementType)).flatMap RElem.materialIds

/-- `purge_unused_materials` (lines 330–343): unused materials are deleted,
except those whose stripped, lowercased name is `default` or `global`. -/
def purge_unused_materials (d : FamilyDoc) : FamilyDoc × ℕ :=
  let used := collect_used_material_ids d
  let toDel := (d.elems.filter (fun e =>
    e.cls == RClass.material
    && !((pyStrip e.name.toList).map Char.toLower == "default".toList)
    && !((pyStrip e.name.toList).map Char.toLower == "global".toList)
    && !used.contains e.id)).map RElem.id
  delete_elements d toDel

/-- `purge_unused_fill_patterns` (lines 346–374): fill patterns not referenced
by any material pattern id nor any `FilledRegionType`. -/
def purge_unused_fill_patterns (d : FamilyDoc) : FamilyDoc × ℕ :=
  let used :=
    ((d.elems.filter (fun e => e.cls == RClass.material)).flatMap RElem.patternIds)
    ++ ((d.elems.filter (fun e => e.cls == RClass.filledRegionType)).flatMap RElem.patternIds)
  let toDel := (d.elems.filter (fun e =>
    e.cls == RClass.fillPattern && !used.contains e.id)).map RElem.id
  delete_elements d toDel

/-- `purge_unused_appearance_assets` (lines 377–393). -/
def purge_unused_appearance_assets (d : FamilyDoc) : FamilyDoc × ℕ :=
  let used := (d.elems.filter (fun e => e.cls == RClass.material)).filterMap RElem.assetId
  let toDel := (d.elems.filter (fun e =>
    e.cls == RClass.appearanceAsset && !used.contains e.id)).map RElem.id
  delete_elements d toDel

/-- `DELETE_UNLABELED_UNLOCKED_DIMENSIONS` config toggle (line 58). -/
def DELETE_UNLABELED_UNLOCKED_DIMENSIONS : Bool := false

/-- `DELETE_EXTRA_VIEWS` config toggle (line 59). -/
def DELETE_EXTRA_VIEWS : Bool := false

/-- `purge_unlabeled_unlocked_dimensions` (lines 415–425): disabled by its
toggle, so it deletes nothing and returns 0. -/
def purge_unlabeled_unlocked_dimensions (d : FamilyDoc) : FamilyDoc × ℕ :=
  if DELETE_UNLABELED_UNLOCKED_DIMENSIONS then (d, 0) else (d, 0)

/-- `purge_extra_views` (lines 428–451): disabled by its toggle, so it
deletes nothing and returns 0. -/
def purge_extra_views (d : FamilyDoc) : FamilyDoc × ℕ :=
  if DELETE_EXTRA_VIEWS then (d, 0) else (d, 0)

/-- `purge_unused_element_types_best_effort` (lines 396–412): every element
type whose id is not a `FamilyManager` type id. -/
def purge_unused_element_types_best_effort (d : FamilyDoc) : FamilyDoc × ℕ :=
  let toDel := ((d.elems.filter (fun e => e.cls.isElementType)).filter
    (fun e => !d.famTypes.contains e.id)).map RElem.id
  delete_elements d toDel

/-- `purge_family_api_only` (lines 454–475), with no cancellation in flight:
the nine purge primitives run in source order, each seeing the document the
previous ones left behind; the counts are summed. -/
def purge_family_api_only (d : FamilyDoc) : FamilyDoc × ℕ :=
  match purge_imports_and_images d with
  | (d1, c1) =>
  match purge_unused_nested_symbols d1 with
  | (d2, c2) =>
  match purge_unused_family_types d2 with
  | (d3, c3) =>
  match purge_unused_materials d3 with
  | (d4, c4) =>
  match purge_unused_fill_patterns d4 with
  | (d5, c5) =>
  match purge_unused_appearance_assets d5 with
  | (d6, c6) =>
  match purge_unlabeled_unlocked_dimensions d6 with
  | (d7, c7) =>
  match purge_extra_views d7 with
  | (d8, c8) =>
  match purge_unused_element_types_best_effort d8 with
  | (d9, c9) =>
  (d9, c1 + c2 + c3 + c4 + c5 + c6 + c7 + c8 + c9)

/-- Modelled from the spec: the `.rfa` serialised size produced by the host
`SaveAs` (glossary: a family is "serialized to a proprietary binary file").
It is modelled as any per-element weighting: each element id contributes a
nonnegative number of bytes, and the file size is their sum. -/
def sizeKB (wt : ℕ → ℕ) (d : FamilyDoc) : ℕ :=
  ((d.elems.map (fun e => wt e.id)).sum) + ((d.famTypes.map wt).sum)

/-- Modelled from the spec: the performance-adviser rule engine (glossary:
"host-provided rule engine that flags purgeable (unused) elements inside a
family document").  An element is flagged iff no other part of the document
references its id. -/
def referencedIds (d : FamilyDoc) : List ℕ :=
  (d.elems.flatMap (fun e =>
    e.symbolId.toList ++ e.materialIds ++ e.patternIds ++ e.assetId.toList))
  ++ d.currentType.toList

/-- Modelled from the spec: the flag set of the vendor rule engine — the
unreferenced (unused) elements of the document. -/
def specAdviserFlags (d : FamilyDoc) : List ℕ :=
  (d.elems.filter (fun e => !(referencedIds d).contains e.id)).map RElem.id

/-- A concrete two-element family document used to compare the shipped purge
with the spec-modelled rule engine: an image instance (id 2) that references
its image type (id 3). -/
def adviserDemoDoc : FamilyDoc :=
  { elems := [⟨2, RClass.imageInstance, some 3, "", [], [], none⟩,
              ⟨3, RClass.imageType, none, "", [], [], none⟩],
    famTypes := [],
    currentType := none }

/-- A loadable family as the ranking pass sees it (lines 480–484). -/
structure RFamily where
  name : String
  isEditable : Bool
  isInPlace : Bool
deriving DecidableEq, Repr

/-- `candidates = [f for f in families if f.IsEditable and not f.IsInPlace]`
(line 481). -/
def candidatesOf (families : List RFamily) : List RFamily :=
  families.filter (fun f => f.isEditable && !f.isInPlace)

/-- `n_default = min(25, max(5, int(len(candidates) * 0.2)))` (line 485),
with the float product `len * 0.2` modelled exactly (they agree for every
candidate count). -/
def n_default (ncand : ℕ) : ℕ := min 25 (max 5 (ncand / 5))

/-- `rank_info.sort(key=lambda x: x[1], reverse=True)` (line 545): stable
sort by pre-purge size, biggest first. -/
def rank_sorted (rank_info : List (RFamily × ℤ)) : List (RFamily × ℤ) :=
  rank_info.mergeSort (fun a b => b.2 ≤ a.2)

/-- `worklist = rank_info if process_all else rank_info[:n_default]`
(line 547), after the in-place sort. -/
def worklistOf (rank_info : List (RFamily × ℤ)) (processAll : Bool) :
    List (RFamily × ℤ) :=
  if processAll then rank_sorted rank_info
  else (rank_sorted rank_info).take (n_default rank_info.length)

/-! ## Transactions
(`src/HOK Tools.panel/Door Configurator.pushbutton/script.py` lines 18–30,
`Doors.extension/.../Door Configurator.pushbutton/script.py` lines 110–177,
`Scale Drafting Regions.pushbutton/script.py` lines 224–228.) -/

/-- Outcome of a transaction-wrapped call: whether the body raised, whether
the transaction was committed (`false` = rolled back), and the document
state left behind. -/
structure TxResult (α : Type) where
  errored : Bool
  committed : Bool
  doc : α
deriving DecidableEq, Repr

/-- A door instance for `update_door_parameters`: its named parameters.
`LookupParameter` yields `none` when the parameter is missing, and `.Set`
on that `None` raises. -/
def lookupSet (door : List (String × PValue)) (nm : String) (v : PValue) :
    Option (List (String × PValue)) :=
  if (door.lookup nm).isSome then
    some (door.map (fun p => if p.1 = nm then (p.1, v) else p))
  else none

/-- `update_door_parameters` (old configurator, lines 18–30): four `Set`
calls inside a started transaction; the `except` handler prints and then
calls `transaction.Commit()` — the `RollBack` is commented out, so even on
error the partial mutation is committed. -/
def update_door_parameters (door : List (String × PValue))
    (panel_type frame_type : String) (width height : ℚ) :
    TxResult (List (String × PValue)) :=
  match lookupSet door "PANEL 1" (PValue.strv panel_type) with
  | none => ⟨true, true, door⟩
  | some d1 =>
    match lookupSet d1 "FRAME" (PValue.strv frame_type) with
    | none => ⟨true, true, d1⟩
    | some d2 =>
      match lookupSet d2 "PANEL WIDTH PANEL 1" (PValue.num width) with
      | none => ⟨true, true, d2⟩
      | some d3 =>
        match lookupSet d3 "PANEL HEIGHT" (PValue.num height) with
        | none => ⟨true, true, d3⟩
        | some d4 => ⟨false, true, d4⟩

/-- The `with Transaction ... try ... trans.Commit() except ... trans.RollBack()`
pattern of `save_as_new_family` (lines 110–177) and of the Scale Drafting
Regions transaction group (lines 224–228): the body either finishes with a
new state (committed) or raises (`none`), in which case the rollback restores
the pre-transaction state. -/
def save_as_new_family_tx {α : Type} (body : α → Option α) (famTemp : α) :
    TxResult α :=
  match body famTemp with
  | some d2 => ⟨false, true, d2⟩
  | none => ⟨true, false, famTemp⟩

/-! ## IEEE-754 binary64 model (for the type-name round trip)

`typeName = "{W}x{H}".format(...)` is built from `int(width*12)` where
`width = float(width) / 12.0` was computed in Python floats, i.e. IEEE-754
binary64 with round-to-nearest, ties to even.  The rounding is modelled
exactly over `ℚ` with an unbounded exponent (all quantities involved are far
from binary64 overflow and underflow, where the model and binary64 agree). -/

/-- Fuel-driven binary logarithm: `log2fuel fuel n = ⌊log₂ n⌋` whenever
`1 ≤ n ≤ fuel`. -/
def log2fuel : ℕ → ℕ → ℕ
  | 0, _ => 0
  | fuel + 1, n => if n < 2 then 0 else log2fuel fuel (n / 2) + 1

/-- `⌊log₂ n⌋` for `n ≥ 1`. -/
def natLog2 (n : ℕ) : ℕ := log2fuel n n

/-- Fuel-driven ceiling binary logarithm: the least `k` with `n ≤ 2 ^ k`,
whenever `1 ≤ n ≤ fuel`. -/
def clog2fuel : ℕ → ℕ → ℕ
  | 0, _ => 0
  | fuel + 1, n => if n ≤ 1 then 0 else clog2fuel fuel ((n + 1) / 2) + 1

/-- `⌈log₂ n⌉` for `n ≥ 1`. -/
def natClog2 (n : ℕ) : ℕ := clog2fuel n n

/-- Binary exponent of a positive rational: the unique `e` with
`2 ^ e ≤ x < 2 ^ (e + 1)`. -/
def expo (x : ℚ) : ℤ :=
  if 1 ≤ x then (natLog2 ⌊x⌋.toNat : ℤ) else -(natClog2 ⌈x⁻¹⌉.toNat : ℤ)

/-- Round a rational to the nearest integer, ties to even. -/
def roundEven (y : ℚ) : ℤ :=
  let n := ⌊y⌋
  let f := y - (n : ℚ)
  if f < 1 / 2 then n
  else if 1 / 2 < f then n + 1
  else if 2 ∣ n then n else n + 1

/-- Binary64 rounding of a positive rational: round to the nearest multiple
of `2 ^ (expo x - 52)` (53-bit significand), ties to even. -/
def RNpos (x : ℚ) : ℚ :=
  (2 : ℚ) ^ (expo x - 52) * (roundEven (x / (2 : ℚ) ^ (expo x - 52)) : ℚ)

/-- Binary64 round-to-nearest-even over `ℚ`. -/
def RN (x : ℚ) : ℚ :=
  if x = 0 then 0 else if 0 < x then RNpos x else -RNpos (-x)

/-- Python float division: the correctly rounded quotient. -/
def pyDiv64 (a b : ℚ) : ℚ := RN (a / b)

/-- Python float multiplication: the correctly rounded product. -/
def pyMul64 (a b : ℚ) : ℚ := RN (a * b)

/-- `float(width)` on a whole-number inch string of value `w`. -/
def pyFloat64OfNat (w : ℕ) : ℚ := RN (w : ℚ)

/-- `width = float(width) / 12.0` (`script.py` lines 70–72) in binary64. -/
def widthFeet64 (w : ℕ) : ℚ := pyDiv64 (pyFloat64OfNat w) 12

/-- `int(width*12)` (`script.py` line 107) in binary64. -/
def typeNameInches (wf : ℚ) : ℤ := pyInt (pyMul64 wf 12)

/-- `typeName = "{W}x{H}"` with `W = int(width*12)`, `H = int(height*12)`
(`script.py` line 107). -/
def typeName64 (wf hf : ℚ) : String :=
  toString (typeNameInches wf) ++ "x" ++ toString (typeNameInches hf)

/-! ## Helper lemmas -/

/-- Association-list lookup finds exactly the stored pair when keys are
distinct. -/
theorem lookup_eq_some_of_mem {α β : Type} [DecidableEq α] :
    ∀ (l : List (α × β)), (l.map Prod.fst).Nodup →
      ∀ a b, (a, b) ∈ l → l.lookup a = some b := by
  intro l
  induction l with
  | nil => intro _ a b h; cases h
  | cons hd tl ih =>
    intro hnd a b hmem
    rcases List.mem_cons.1 hmem with heq | htl
    · cases heq
      simp [List.lookup]
    · have hkey : a ∈ tl.map Prod.fst := List.mem_map.2 ⟨(a, b), htl, rfl⟩
      have hne : a ≠ hd.1 := by
        intro hcontra
        exact (List.nodup_cons.1 hnd).1 (hcontra ▸ hkey)
      have hbeq : (a == hd.1) = false := beq_false_of_ne hne
      simp only [List.lookup, hbeq]
      exact ih (List.nodup_cons.1 hnd).2 a b htl

/-- Association-list lookup misses keys that are not stored. -/
theorem lookup_eq_none_of_not_mem {α β : Type} [DecidableEq α] :
    ∀ (l : List (α × β)), ∀ a, a ∉ l.map Prod.fst → l.lookup a = none := by
  intro l
  induction l with
  | nil => intro a _; rfl
  | cons hd tl ih =>
    intro a ha
    have hne : a ≠ hd.1 := fun hc => ha (by simp [hc])
    have hbeq : (a == hd.1) = false := beq_false_of_ne hne
    simp only [List.lookup, hbeq]
    exact ih a (fun hc => ha (by simp [List.mem_map] at hc ⊢; exact Or.inr hc))

/-- The weighted sum over a filtered list is at most the sum over the list. -/
theorem sum_map_filter_le {α : Type} (f : α → ℕ) (p : α → Bool) :
    ∀ l : List α, ((l.filter p).map f).sum ≤ (l.map f).sum := by
  intro l
  induction l with
  | nil => simp
  | cons a l ih =>
    by_cases h : p a = true
    · simpa [List.filter_cons, h] using Nat.add_le_add_left ih (f a)
    · simp only [List.filter_cons, h, if_neg]
      simp only [Bool.false_eq_true, if_false, List.map_cons, List.sum_cons]
      exact le_trans ih (Nat.le_add_left _ _)

/-- Deleting elements never increases the modelled serialised size. -/
theorem sizeKB_delete_le (wt : ℕ → ℕ) (d : FamilyDoc) (ids : List ℕ) :
    sizeKB wt (delete_elements d ids).1 ≤ sizeKB wt d := by
  unfold delete_elements
  by_cases h : ids.isEmpty
  · simp [h]
  · simp only [h, Bool.false_eq_true, if_false, sizeKB]
    exact Nat.add_le_add (sum_map_filter_le _ _ _) (sum_map_filter_le _ _ _)

/-- Elements surviving a deletion were in the document before it. -/
theorem mem_elems_delete {d : FamilyDoc} {ids : List ℕ} {e : RElem}
    (h : e ∈ (delete_elements d ids).1.elems) : e ∈ d.elems := by
  unfold delete_elements at h
  by_cases hi : ids.isEmpty
  · simpa [hi] using h
  · simp only [hi, Bool.false_eq_true, if_false] at h
    exact List.mem_of_mem_filter h

/-! ## Claims C2, C3: frame-to-primitive mapping -/

/-- Claim C2: for every frame code that is a key of
`FRAME_TO_PRIMITIVE_MAPPING`, the generator selects exactly the prototype
family (and suffix) named by that table entry. -/
theorem c2_mapping_present_selects_exact (c : String) (pr : String × String)
    (h : (c, pr) ∈ FRAME_TO_PRIMITIVE_MAPPING) :
    selectPrototype c = GenResult.generated pr.1 pr.2 := by
  have hnd : (FRAME_TO_PRIMITIVE_MAPPING.map Prod.fst).Nodup := by decide
  have hl := lookup_eq_some_of_mem FRAME_TO_PRIMITIVE_MAPPING hnd c pr h
  simp [selectPrototype, hl]

/-- Witness for C2 at the claim's own example: code `S01` selects
`DoorConfigPrimative02` with suffix `_SingleSwing_HOK_I`. -/
theorem c2_mapping_present_selects_exact_witness :
    selectPrototype "S01"
      = GenResult.generated "DoorConfigPrimative02" "_SingleSwing_HOK_I" :=
  c2_mapping_present_selects_exact "S01"
    ("DoorConfigPrimative02", "_SingleSwing_HOK_I") (by decide)

/-- Claim C3: for every frame code that is not a key of
`FRAME_TO_PRIMITIVE_MAPPING`, generation is skipped with a logged message and
no prototype family is ever substituted. -/
theorem c3_mapping_absent_skips (c : String)
    (h : c ∉ FRAME_TO_PRIMITIVE_MAPPING.map Prod.fst) :
    (∃ m, selectPrototype c = GenResult.skippedLogged m) ∧
    (∀ p s, selectPrototype c ≠ GenResult.generated p s) := by
  have hl := lookup_eq_none_of_not_mem FRAME_TO_PRIMITIVE_MAPPING c h
  constructor
  · exact ⟨"No primitive mapping for frame type " ++ c ++ "; skipping.",
      by simp [selectPrototype, hl]⟩
  · intro p s
    simp [selectPrototype, hl]

/-- Witness for C3 at the absent code `X99`. -/
theorem c3_mapping_absent_skips_witness :
    (∃ m, selectPrototype "X99" = GenResult.skippedLogged m) ∧
    (∀ p s, selectPrototype "X99" ≠ GenResult.generated p s) :=
  c3_mapping_absent_skips "X99" (by decide)

/-! ## Claim C7: batch CSV ingestion -/

/-- Claim C7: rows are processed in file order — the batch output is the
in-order image of the rows that parse — and a malformed row is skipped
without aborting the rest of the batch. -/
theorem c7_csv_row_order_and_skip (process : DoorConfig → GenResult) :
    (∀ rows : List (List String),
        processBatch process rows = (rows.filterMap parseRow).map process) ∧
    (∀ pre post : List (List String), ∀ bad : List String,
        parseRow bad = none →
        processBatch process (pre ++ bad :: post)
          = processBatch process (pre ++ post)) := by
  have hmain : ∀ rows : List (List String),
      processBatch process rows = (rows.filterMap parseRow).map process := by
    intro rows
    induction rows with
    | nil => rfl
    | cons r rest ih =>
      cases hr : parseRow r with
      | none => simp [processBatch, hr, ih]
      | some cfg => simp [processBatch, hr, ih]
  refine ⟨hmain, ?_⟩
  intro pre post bad hbad
  rw [hmain, hmain, List.filterMap_append, List.filterMap_append]
  simp [List.filterMap_cons, hbad]

/-- Witness for C7: an empty row in the middle of a two-row batch is skipped
and the batch result is the same as without it. -/
theorem c7_csv_row_order_and_skip_witness :
    parseRow ([] : List String) = none ∧
    processBatch (fun _ => GenResult.skippedLogged "")
        ([["P1", "S01", "36", "84"]] ++ ([] : List String) :: [["P2", "D02", "42", "96"]])
      = processBatch (fun _ => GenResult.skippedLogged "")
        ([["P1", "S01", "36", "84"]] ++ [["P2", "D02", "42", "96"]]) :=
  ⟨rfl, (c7_csv_row_order_and_skip (fun _ => GenResult.skippedLogged "")).2
    [["P1", "S01", "36", "84"]] [["P2", "D02", "42", "96"]] [] rfl⟩

/-! ## Claim C10: purge preserves the current family type -/

/-- Claim C10: `purge_unused_family_types` never lists the current type for
deletion, and with one or zero types it deletes nothing and returns 0. -/
theorem c10_current_type_preserved (d : FamilyDoc) :
    (∀ k, d.currentType = some k → k ∉ purge_unused_family_types_toDel d) ∧
    (d.famTypes.length ≤ 1 → purge_unused_family_types d = (d, 0)) := by
  constructor
  · intro k hk hmem
    unfold purge_unused_family_types_toDel at hmem
    by_cases hlen : d.famTypes.length ≤ 1
    · simp [hlen] at hmem
    · simp only [hlen, if_neg, if_false] at hmem
      have := List.of_mem_filter hmem
      rw [hk] at this
      simp at this
  · intro hlen
    unfold purge_unused_family_types
    simp [hlen]

/-- Witness for C10: current type 1 of a two-type family is not listed,
and a one-type family is returned untouched with count 0. -/
theorem c10_current_type_preserved_witness :
    (1 ∉ purge_unused_family_types_toDel ⟨[], [1, 2], some 1⟩) ∧
    purge_unused_family_types ⟨[], [7], none⟩ = (⟨[], [7], none⟩, 0) :=
  ⟨(c10_current_type_preserved ⟨[], [1, 2], some 1⟩).1 1 rfl,
   (c10_current_type_preserved ⟨[], [7], none⟩).2 (by decide)⟩

/-! ## Claim C4: purge never increases serialised size -/

/-- Claim C4: under the spec-modelled serialised size (a sum of nonnegative
per-element weights), the document left by `purge_family_api_only` is never
larger than the document it started from, so the reported saving
`pre_kb - post_kb` is nonnegative and the `max(0, ...)` clamp is the
identity. -/
theorem c4_post_size_le_pre_size (wt : ℕ → ℕ) (d : FamilyDoc) :
    sizeKB wt (purge_family_api_only d).1 ≤ sizeKB wt d ∧
    max 0 ((sizeKB wt d : ℤ) - (sizeKB wt (purge_family_api_only d).1 : ℤ))
      = (sizeKB wt d : ℤ) - (sizeKB wt (purge_family_api_only d).1 : ℤ) := by
  have step3 : ∀ d0, sizeKB wt (purge_unused_family_types d0).1 ≤ sizeKB wt d0 := by
    intro d0; unfold purge_unused_family_types
    by_cases h : d0.famTypes.length ≤ 1
    · simp [h]
    · simp only [h, if_neg, if_false]
      exact sizeKB_delete_le wt d0 _
  rcases h1 : purge_imports_and_images d with ⟨d1, c1⟩
  rcases h2 : purge_unused_nested_symbols d1 with ⟨d2, c2⟩
  rcases h3 : purge_unused_family_types d2 with ⟨d3, c3⟩
  rcases h4 : purge_unused_materials d3 with ⟨d4, c4⟩
  rcases h5 : purge_unused_fill_patterns d4 with ⟨d5, c5⟩
  rcases h6 : purge_unused_appearance_assets d5 with ⟨d6, c6⟩
  rcases h7 : purge_unlabeled_unlocked_dimensions d6 with ⟨d7, c7⟩
  rcases h8 : purge_extra_views d7 with ⟨d8, c8⟩
  rcases h9 : purge_unused_element_types_best_effort d8 with ⟨d9, c9⟩
  have hfst : (purge_family_api_only d).1 = d9 := by
    simp only [purge_family_api_only, h1, h2, h3, h4, h5, h6, h7, h8, h9]
  have s1 : sizeKB wt d1 ≤ sizeKB wt d := by
    rw [show d1 = (purge_imports_and_images d).1 from by rw [h1]]
    unfold purge_imports_and_images
    exact sizeKB_delete_le wt d _
  have s2 : sizeKB wt d2 ≤ sizeKB wt d1 := by
    rw [show d2 = (purge_unused_nested_symbols d1).1 from by rw [h2]]
    unfold purge_unused_nested_symbols
    exact sizeKB_delete_le wt d1 _
  have s3 : sizeKB wt d3 ≤ sizeKB wt d2 := by
    rw [show d3 = (purge_unused_family_types d2).1 from by rw [h3]]
    exact step3 d2
  have s4 : sizeKB wt d4 ≤ sizeKB wt d3 := by
    rw [show d4 = (purge_unused_materials d3).1 from by rw [h4]]
    unfold purge_unused_materials
    exact sizeKB_delete_le wt d3 _
  have s5 : sizeKB wt d5 ≤ sizeKB wt d4 := by
    rw [show d5 = (purge_unused_fill_patterns d4).1 from by rw [h5]]
    unfold purge_unused_fill_patterns
    exact sizeKB_delete_le wt d4 _
  have s6 : sizeKB wt d6 ≤ sizeKB wt d5 := by
    rw [show d6 = (purge_unused_appearance_assets d5).1 from by rw [h6]]
    unfold purge_unused_appearance_assets
    exact sizeKB_delete_le wt d5 _
  have s7 : sizeKB wt d7 ≤ sizeKB wt d6 := by
    rw [show d7 = (purge_unlabeled_unlocked_dimensions d6).1 from by rw [h7]]
    unfold purge_unlabeled_unlocked_dimensions
    simp
  have s8 : sizeKB wt d8 ≤ sizeKB wt d7 := by
    rw [show d8 = (purge_extra_views d7).1 from by rw [h8]]
    unfold purge_extra_views
    simp
  have s9 : sizeKB wt d9 ≤ sizeKB wt d8 := by
    rw [show d9 = (purge_unused_element_types_best_effort d8).1 from by rw [h9]]
    unfold purge_unused_element_types_best_effort
    exact sizeKB_delete_le wt d8 _
  have hle : sizeKB wt (purge_family_api_only d).1 ≤ sizeKB wt d := by
    rw [hfst]
    exact le_trans s9 (le_trans s8 (le_trans s7 (le_trans s6 (le_trans s5
      (le_trans s4 (le_trans s3 (le_trans s2 s1)))))))
  refine ⟨hle, max_eq_right ?_⟩
  have := Int.ofNat_le.2 hle
  omega

/-! ## Claim C6: transaction atomicity -/

/-- Counterexample to claim C6 as stated: on a door that has `PANEL 1` and
`FRAME` parameters but no `PANEL WIDTH PANEL 1`, `update_door_parameters`
raises at the third `Set`, and the `except` handler *commits* the partially
mutated document instead of rolling it back (the `RollBack` call is commented
out in the source), so an error inside the transaction leaves the document
changed. -/
theorem c6_counterexample :
    ((update_door_parameters [("PANEL 1", PValue.unset), ("FRAME", PValue.unset)]
        "FL" "HM" 3 7).errored = true) ∧
    ((update_door_parameters [("PANEL 1", PValue.unset), ("FRAME", PValue.unset)]
        "FL" "HM" 3 7).committed = true) ∧
    ((update_door_parameters [("PANEL 1", PValue.unset), ("FRAME", PValue.unset)]
        "FL" "HM" 3 7).doc
      ≠ [("PANEL 1", PValue.unset), ("FRAME", PValue.unset)]) := by
  refine ⟨rfl, rfl, ?_⟩
  intro h
  have := congrArg (fun l => l.head?) h
  simp [update_door_parameters, lookupSet, List.lookup] at this

/-- Claim C6 as amended: mutation happens inside started transactions, and
the `try/except` transaction bodies of `save_as_new_family` and the Scale
Drafting Regions transaction group roll back on error, restoring the
pre-transaction state — but `update_door_parameters` of the legacy
configurator commits even when its body raises. -/
theorem c6_amended_rollback {α : Type} (body : α → Option α) (famTemp : α) :
    (body famTemp = none →
      save_as_new_family_tx body famTemp = ⟨true, false, famTemp⟩) ∧
    (∀ door pt ft w h, (update_door_parameters door pt ft w h).committed = true) := by
  constructor
  · intro hb
    unfold save_as_new_family_tx
    rw [hb]
  · intro door pt ft w h
    unfold update_door_parameters
    cases lookupSet door "PANEL 1" (PValue.strv pt) with
    | none => rfl
    | some d1 =>
      dsimp only
      cases lookupSet d1 "FRAME" (PValue.strv ft) with
      | none => rfl
      | some d2 =>
        dsimp only
        cases lookupSet d2 "PANEL WIDTH PANEL 1" (PValue.num w) with
        | none => rfl
        | some d3 =>
          dsimp only
          cases lookupSet d3 "PANEL HEIGHT" (PValue.num h) with
          | none => rfl
          | some d4 => rfl

/-- Witness for the amended C6: a body that raises rolls back to the original
state, and `update_door_parameters` commits on a concrete empty door. -/
theorem c6_amended_rollback_witness :
    save_as_new_family_tx (fun _ : ℕ => none) 0 = ⟨true, false, 0⟩ ∧
    (update_door_parameters [] "FL" "HM" 3 7).committed = true :=
  ⟨(c6_amended_rollback (fun _ : ℕ => none) 0).1 rfl,
   (c6_amended_rollback (fun _ : ℕ => (none : Option ℕ)) 0).2 [] "FL" "HM" 3 7⟩

/-! ## Claim C1: door dimensions stored in feet -/

/-- The shared-parameter pass never changes a parameter's shared flag. -/
theorem setSharedParam_isShared (w h : ℚ) (b f : List ℕ) (p : FamParam) :
    (setSharedParam w h b f p).isShared = p.isShared := by
  unfold setSharedParam
  repeat' split
  all_goals rfl

/-- The shared-parameter pass never changes a parameter's GUID. -/
theorem setSharedParam_guid (w h : ℚ) (b f : List ℕ) (p : FamParam) :
    (setSharedParam w h b f p).guid = p.guid := by
  unfold setSharedParam
  repeat' split
  all_goals rfl

/-- A shared parameter with the `PANEL WIDTH PANEL 1` GUID receives the width. -/
theorem setSharedParam_value_pw (w h : ℚ) (b f : List ℕ) (p : FamParam)
    (hsh : p.isShared = true) (hg : p.guid = pwGU) :
    (setSharedParam w h b f p).value = PValue.num w := by
  unfold setSharedParam
  rw [hsh, hg]
  simp

/-- A shared parameter with the `PANEL HEIGHT` GUID receives the height. -/
theorem setSharedParam_value_ph (w h : ℚ) (b f : List ℕ) (p : FamParam)
    (hsh : p.isShared = true) (hg : p.guid = phGU) :
    (setSharedParam w h b f p).value = PValue.num h := by
  unfold setSharedParam
  rw [hsh, hg]
  simp +decide

/-- Claim C1: after the shared-parameter pass of `save_as_new_family` run on
the feet values `main` computed (`float(width)/12.0`), every shared parameter
carrying the `PANEL WIDTH PANEL 1` GUID holds `width/12` and every shared
parameter carrying the `PANEL HEIGHT` GUID holds `height/12`. -/
theorem c1_width_height_in_feet (wv hv : ℚ) (ps : List FamParam)
    (bamSyms famSyms : List ℕ) (q : FamParam)
    (hq : q ∈ save_as_new_family_setParams ps (inches_to_feet wv)
      (inches_to_feet hv) bamSyms famSyms)
    (hsh : q.isShared = true) :
    (q.guid = pwGU → q.value = PValue.num (wv / 12)) ∧
    (q.guid = phGU → q.value = PValue.num (hv / 12)) := by
  obtain ⟨p, hp, rfl⟩ := List.mem_map.1 hq
  rw [setSharedParam_isShared] at hsh
  constructor
  · intro hg
    rw [setSharedParam_guid] at hg
    rw [setSharedParam_value_pw _ _ _ _ _ hsh hg]
    rfl
  · intro hg
    rw [setSharedParam_guid] at hg
    rw [setSharedParam_value_ph _ _ _ _ _ hsh hg]
    rfl

/-- Witness for C1: a one-parameter set holding the width GUID, with
width 36 in and height 84 in. -/
theorem c1_width_height_in_feet_witness :
    (⟨true, pwGU, PValue.num (inches_to_feet 36)⟩ : FamParam).value
      = PValue.num ((36 : ℚ) / 12) :=
  (c1_width_height_in_feet 36 84 [⟨true, pwGU, PValue.unset⟩] [] []
    ⟨true, pwGU, PValue.num (inches_to_feet 36)⟩
    (by simp [save_as_new_family_setParams, setSharedParam])
    rfl).1 rfl

/-! ## Claim C5: biggest-first purge -/

/-- Counterexample to claim C5 as stated: the tool does not delete "the
elements flagged by a vendor-supplied rule engine".  On a family document
holding one image instance (id 2) referencing its image type (id 3), the
spec-modelled rule engine does not flag id 3 as purgeable — it is referenced,
not unused — yet `purge_family_api_only` (the routine the shipped tool runs,
which never consults the rule engine) deletes it: the purge set is computed
by the script's own API queries, not by the vendor rule engine, which
survives only in the unused `superceded.py` module. -/
theorem c5_counterexample :
    (∃ e ∈ adviserDemoDoc.elems, e.id = 3) ∧
    (3 ∉ specAdviserFlags adviserDemoDoc) ∧
    (∀ e ∈ (purge_family_api_only adviserDemoDoc).1.elems, e.id ≠ 3) := by
  refine ⟨⟨⟨3, RClass.imageType, none, "", [], [], none⟩, by decide, rfl⟩, by decide, ?_⟩
  decide

/-- Claim C5 as amended: the tool filters editable, non-in-place families,
ranks them by pre-purge size in stable descending order, takes the top
`min(25, max(5, 20% of candidates))` of that ranking (or all), and its purge
step only ever removes elements of the family document — the flagged set
being computed by the script's own API-only routines, not by the vendor rule
engine. -/
theorem c5_rank_and_topn :
    (∀ (ri : List (RFamily × ℤ)) (pa : Bool),
        List.Pairwise (fun a b => b.2 ≤ a.2) (worklistOf ri pa)) ∧
    (∀ (ri : List (RFamily × ℤ)) (pa : Bool), (worklistOf ri pa).Subperm ri) ∧
    (∀ ri : List (RFamily × ℤ),
        (worklistOf ri false).length = min (n_default ri.length) ri.length ∧
        (worklistOf ri true).length = ri.length) ∧
    (∀ ri : List (RFamily × ℤ), ∀ x ∈ worklistOf ri false,
        ∀ y ∈ (rank_sorted ri).drop (n_default ri.length), y.2 ≤ x.2) ∧
    (∀ d : FamilyDoc, ∀ e ∈ (purge_family_api_only d).1.elems, e ∈ d.elems) := by
  have htrans : ∀ a b c : RFamily × ℤ, (decide (b.2 ≤ a.2)) = true →
      (decide (c.2 ≤ b.2)) = true → (decide (c.2 ≤ a.2)) = true := by
    intro a b c h1 h2
    simp only [decide_eq_true_eq] at h1 h2 ⊢
    exact le_trans h2 h1
  have htotal : ∀ a b : RFamily × ℤ,
      ((decide (b.2 ≤ a.2)) || (decide (a.2 ≤ b.2))) = true := by
    intro a b
    simp only [Bool.or_eq_true, decide_eq_true_eq]
    exact le_total _ _
  have hsorted : ∀ ri : List (RFamily × ℤ),
      List.Pairwise (fun a b => b.2 ≤ a.2) (rank_sorted ri) := by
    intro ri
    have := List.sorted_mergeSort htrans htotal ri
    exact this.imp (fun h => by simpa using h)
  refine ⟨?_, ?_, ?_, ?_, ?_⟩
  · intro ri pa
    cases pa
    · exact List.Pairwise.sublist (List.take_sublist _ _) (hsorted ri)
    · exact hsorted ri
  · intro ri pa
    cases pa
    · exact ((List.take_sublist _ _).subperm).trans
        (List.mergeSort_perm ri _).subperm
    · exact (List.mergeSort_perm ri _).subperm
  · intro ri
    constructor
    · simp [worklistOf, rank_sorted, List.length_take, List.length_mergeSort]
    · simp [worklistOf, rank_sorted, List.length_mergeSort]
  · intro ri x hx y hy
    have hfull := hsorted ri
    have hsplit : rank_sorted ri
        = (rank_sorted ri).take (n_default ri.length)
          ++ (rank_sorted ri).drop (n_default ri.length) :=
      (List.take_append_drop _ _).symm
    rw [hsplit] at hfull
    have := (List.pairwise_append.1 hfull).2.2
    simp only [worklistOf, if_neg, Bool.false_eq_true, if_false] at hx
    exact this x hx y hy
  · intro d e he
    rcases h1 : purge_imports_and_images d with ⟨d1, c1⟩
    rcases h2 : purge_unused_nested_symbols d1 with ⟨d2, c2⟩
    rcases h3 : purge_unused_family_types d2 with ⟨d3, c3⟩
    rcases h4 : purge_unused_materials d3 with ⟨d4, c4⟩
    rcases h5 : purge_unused_fill_patterns d4 with ⟨d5, c5⟩
    rcases h6 : purge_unused_appearance_assets d5 with ⟨d6, c6⟩
    rcases h7 : purge_unlabeled_unlocked_dimensions d6 with ⟨d7, c7⟩
    rcases h8 : purge_extra_views d7 with ⟨d8, c8⟩
    rcases h9 : purge_unused_element_types_best_effort d8 with ⟨d9, c9⟩
    have hfst : (purge_family_api_only d).1 = d9 := by
      simp only [purge_family_api_only, h1, h2, h3, h4, h5, h6, h7, h8, h9]
    rw [hfst] at he
    have m9 : e ∈ d8.elems := by
      have : d9 = (purge_unused_element_types_best_effort d8).1 := by rw [h9]
      rw [this] at he
      exact mem_elems_delete he
    have m8 : e ∈ d7.elems := by
      have : d8 = (purge_extra_views d7).1 := by rw [h8]
      rw [this] at m9
      unfold purge_extra_views at m9
      simpa using m9
    have m7 : e ∈ d6.elems := by
      have : d7 = (purge_unlabeled_unlocked_dimensions d6).1 := by rw [h7]
      rw [this] at m8
      unfold purge_unlabeled_unlocked_dimensions at m8
      simpa using m8
    have m6 : e ∈ d5.elems := by
      have : d6 = (purge_unused_appearance_assets d5).1 := by rw [h6]
      rw [this] at m7
      exact mem_elems_delete m7
    have m5 : e ∈ d4.elems := by
      have : d5 = (purge_unused_fill_patterns d4).1 := by rw [h5]
      rw [this] at m6
      exact mem_elems_delete m6
    have m4 : e ∈ d3.elems := by
      have : d4 = (purge_unused_materials d3).1 := by rw [h4]
      rw [this] at m5
      exact mem_elems_delete m5
    have m3 : e ∈ d2.elems := by
      have : d3 = (purge_unused_family_types d2).1 := by rw [h3]
      rw [this] at m4
      unfold purge_unused_family_types at m4
      by_cases hl : d2.famTypes.length ≤ 1
      · simpa [hl] using m4
      · simp only [hl, if_neg, if_false] at m4
        exact mem_elems_delete m4
    have m2 : e ∈ d1.elems := by
      have : d2 = (purge_unused_nested_symbols d1).1 := by rw [h2]
      rw [this] at m3
      exact mem_elems_delete m3
    have : d1 = (purge_imports_and_images d).1 := by rw [h1]
    rw [this] at m2
    exact mem_elems_delete m2

/-- Witness for the amended C5: the purge step keeps only pre-existing
elements on a concrete one-element document. -/
theorem c5_rank_and_topn_witness :
    (⟨5, RClass.otherNonType, none, "", [], [], none⟩ : RElem)
      ∈ ({ elems := [⟨5, RClass.otherNonType, none, "", [], [], none⟩],
           famTypes := [], currentType := none } : FamilyDoc).elems :=
  c5_rank_and_topn.2.2.2.2
    { elems := [⟨5, RClass.otherNonType, none, "", [], [], none⟩],
      famTypes := [], currentType := none }
    ⟨5, RClass.otherNonType, none, "", [], [], none⟩ (by decide)

/-! ## Claim C9: `parse_inch_fraction` -/

/-- `strip` is the identity on a string with no leading or trailing
whitespace. -/
theorem pyStrip_eq_self (s : List Char)
    (h1 : ∀ c, s.head? = some c → c.isWhitespace = false)
    (h2 : ∀ c, s.getLast? = some c → c.isWhitespace = false) :
    pyStrip s = s := by
  unfold pyStrip
  have hd : s.dropWhile Char.isWhitespace = s := by
    rw [List.dropWhile_eq_self_iff]
    intro hl hp
    have := h1 s[0] (by rw [List.head?_eq_getElem?, List.getElem?_eq_getElem hl])
    simp only [List.get_eq_getElem] at hp
    rw [this] at hp
    cases hp
  rw [hd]
  have hr : s.reverse.dropWhile Char.isWhitespace = s.reverse := by
    rw [List.dropWhile_eq_self_iff]
    intro hl hp
    have hh : s.reverse.head? = some (s.reverse[0]) := by
      rw [List.head?_eq_getElem?, List.getElem?_eq_getElem hl]
    have hg : s.getLast? = some (s.reverse[0]) := by
      rw [← List.head?_reverse, hh]
    have := h2 _ hg
    simp only [List.get_eq_getElem] at hp
    rw [this] at hp
    cases hp
  rw [hr, List.reverse_reverse]

/-- The whitespace-split worker on a separator-free suffix. -/
theorem splitWsAux_all (t : List Char) (acc : List Char)
    (hall : ∀ c ∈ t, c.isWhitespace = false) :
    splitWsAux t acc
      = if acc.isEmpty ∧ t.isEmpty then [] else [acc.reverse ++ t] := by
  induction t generalizing acc with
  | nil =>
    by_cases h : acc.isEmpty
    · simp [splitWsAux, h]
    · simp [splitWsAux, h]
  | cons c cs ih =>
    have hc : c.isWhitespace = false := hall c (by simp)
    have ihc := ih (c :: acc) (fun x hx => hall x (by simp [hx]))
    simp only [splitWsAux, hc, Bool.false_eq_true, if_false]
    rw [ihc]
    simp

/-- The whitespace-split worker across a single separating blank. -/
theorem splitWsAux_sep (t1 t2 acc : List Char)
    (h1 : ∀ c ∈ t1, c.isWhitespace = false)
    (hne : acc.isEmpty = false ∨ t1 ≠ []) :
    splitWsAux (t1 ++ ' ' :: t2) acc = (acc.reverse ++ t1) :: pySplitWs t2 := by
  induction t1 generalizing acc with
  | nil =>
    rcases hne with h | h
    · simp only [List.nil_append, splitWsAux, Char.isWhitespace]
      norm_num [h]
      rfl
    · exact absurd rfl h
  | cons c cs ih =>
    have hc : c.isWhitespace = false := h1 c (by simp)
    have := ih (c :: acc) (fun x hx => h1 x (by simp [hx])) (Or.inl rfl)
    simp only [List.cons_append, splitWsAux, hc, Bool.false_eq_true, if_false]
    show splitWsAux (cs ++ ' ' :: t2) (c :: acc) = _
    rw [this]
    simp

/-- A nonempty whitespace-free string splits into itself. -/
theorem pySplitWs_single (t : List Char) (hne : t ≠ [])
    (hall : ∀ c ∈ t, c.isWhitespace = false) : pySplitWs t = [t] := by
  unfold pySplitWs
  rw [splitWsAux_all t [] hall]
  simp [hne]

/-- Two whitespace-free tokens around one blank split into the two tokens. -/
theorem pySplitWs_pair (t1 t2 : List Char) (h1ne : t1 ≠ [])
    (h1 : ∀ c ∈ t1, c.isWhitespace = false) (h2ne : t2 ≠ [])
    (h2 : ∀ c ∈ t2, c.isWhitespace = false) :
    pySplitWs (t1 ++ ' ' :: t2) = [t1, t2] := by
  unfold pySplitWs
  rw [splitWsAux_sep t1 t2 [] h1 (Or.inr h1ne)]
  rw [pySplitWs_single t2 h2ne h2]
  simp

/-- The separator-split worker on separator-free input. -/
theorem splitOnAux_no_sep (sep : Char) (t acc : List Char) (h : sep ∉ t) :
    splitOnAux sep t acc = [acc.reverse ++ t] := by
  induction t generalizing acc with
  | nil => simp [splitOnAux]
  | cons c cs ih =>
    have hc : ¬(c = sep) := fun hcc => h (by simp [hcc])
    simp only [splitOnAux, hc, if_neg, if_false]
    rw [ih _ (fun hm => h (by simp [hm]))]
    simp

/-- The separator-split worker across the single separator occurrence. -/
theorem splitOnAux_sep (sep : Char) (b c : List Char) (hc : sep ∉ c) :
    ∀ acc, sep ∉ b → splitOnAux sep (b ++ sep :: c) acc = (acc.reverse ++ b) :: [c] := by
  induction b with
  | nil =>
    intro acc _
    simp only [List.nil_append, splitOnAux, if_pos rfl]
    rw [splitOnAux_no_sep sep c [] hc]
    simp
  | cons x xs ih =>
    intro acc hb
    have hx : ¬(x = sep) := fun hxx => hb (by simp [hxx])
    simp only [List.cons_append, splitOnAux, hx, if_neg, if_false]
    show splitOnAux sep (xs ++ sep :: c) (x :: acc) = _
    rw [ih (x :: acc) (fun hm => hb (by simp [hm]))]
    simp

/-- Splitting on the single separator occurrence yields the two parts. -/
theorem pySplitOn_pair (sep : Char) (b c : List Char)
    (hb : sep ∉ b) (hc : sep ∉ c) :
    pySplitOn sep (b ++ sep :: c) = [b, c] := by
  unfold pySplitOn
  rw [splitOnAux_sep sep b c hc [] hb]
  simp

/-- A decimal digit is not whitespace. -/
theorem isDigit_not_ws (c : Char) (h : c.isDigit = true) :
    c.isWhitespace = false := by
  unfold Char.isWhitespace
  rw [Bool.eq_false_iff]
  intro ht
  simp only [Bool.or_eq_true, decide_eq_true_eq] at ht
  rcases ht with ((h1 | h1) | h1) | h1 <;> subst h1 <;> exact absurd h (by decide)

/-- `float()` of a nonempty run of decimal digits is its numeric value. -/
theorem pyFloat_digits (a : List Char) (hne : a ≠ [])
    (hall : ∀ c ∈ a, c.isDigit = true) : pyFloat a = some (digitsVal a : ℚ) := by
  have hstrip : pyStrip a = a := by
    refine pyStrip_eq_self a ?_ ?_
    · intro c hcm
      exact isDigit_not_ws c (hall c (List.mem_of_mem_head? (by rw [hcm]; rfl)))
    · intro c hcm
      exact isDigit_not_ws c (hall c (List.mem_of_mem_getLast? hcm))
  have hbody : pyFloatBody a = some (digitsVal a : ℚ) := by
    unfold pyFloatBody
    have htw : a.takeWhile Char.isDigit = a := List.takeWhile_eq_self_iff.2 hall
    have hdw : a.dropWhile Char.isDigit = [] := List.dropWhile_eq_nil_iff.2 hall
    rw [htw, hdw]
    have hie : a.isEmpty = false := by
      cases a
      · exact absurd rfl hne
      · rfl
    simp only [hie, Bool.false_eq_true, if_false]
    rfl
  unfold pyFloat
  rw [hstrip]
  rcases a with _ | ⟨x, xs⟩
  · exact absurd rfl hne
  have hx : x.isDigit = true := hall x (by simp)
  have hxp : x ≠ '+' := fun he => absurd (he ▸ hx) (by decide)
  have hxm : x ≠ '-' := fun he => absurd (he ▸ hx) (by decide)
  dsimp only
  split
  · rename_i r heq
    injection heq with h1 _
    exact absurd h1 hxp
  · rename_i r heq
    injection heq with h1 _
    exact absurd h1 hxm
  · exact hbody

/-- A digit run contains no `/`. -/
theorem no_slash_of_digits (b : List Char) (hall : ∀ ch ∈ b, ch.isDigit = true) :
    '/' ∉ b := by
  intro hm
  exact absurd (hall _ hm) (by decide)

/-- A digit run is whitespace-free. -/
theorem no_ws_of_digits (b : List Char) (hall : ∀ ch ∈ b, ch.isDigit = true) :
    ∀ ch ∈ b, ch.isWhitespace = false :=
  fun ch hm => isDigit_not_ws ch (hall ch hm)

/-- `strip` is the identity on `N/D` digit-fraction tokens. -/
theorem pyStrip_fraction (b c : List Char) (hbne : b ≠ [])
    (hb : ∀ ch ∈ b, ch.isDigit = true) (hcne : c ≠ [])
    (hc : ∀ ch ∈ c, ch.isDigit = true) :
    pyStrip (b ++ '/' :: c) = b ++ '/' :: c := by
  refine pyStrip_eq_self _ ?_ ?_
  · intro ch hch
    rcases b with _ | ⟨x, xs⟩
    · exact absurd rfl hbne
    · simp only [List.cons_append, List.head?_cons, Option.some.injEq] at hch
      exact isDigit_not_ws ch (hch ▸ hb x (by simp))
  · intro ch hch
    have hre : b ++ '/' :: c = (b ++ ['/']) ++ c := by simp
    rw [hre, List.getLast?_append] at hch
    rcases c with _ | ⟨y, ys⟩
    · exact absurd rfl hcne
    · have hcl : (y :: ys).getLast? = some ((y :: ys).getLast (by simp)) :=
        List.getLast?_eq_getLast _ _
      rw [hcl] at hch
      simp only [Option.or_some, Option.some.injEq] at hch
      exact isDigit_not_ws ch
        (hch ▸ hc _ (List.getLast_mem _))

/-- The `try` body on an `N/D` token is the guarded quotient. -/
theorem parse_try_fraction (b c : List Char) (hbne : b ≠ [])
    (hb : ∀ ch ∈ b, ch.isDigit = true) (hcne : c ≠ [])
    (hc : ∀ ch ∈ c, ch.isDigit = true) :
    parse_inch_fraction_try (b ++ '/' :: c)
      = pyDivQ (digitsVal b : ℚ) (digitsVal c : ℚ) := by
  have hall : ∀ ch ∈ b ++ '/' :: c, ch.isWhitespace = false := by
    intro ch hm
    rcases List.mem_append.1 hm with h | h
    · exact isDigit_not_ws ch (hb ch h)
    · rcases List.mem_cons.1 h with h | h
      · subst h; decide
      · exact isDigit_not_ws ch (hc ch h)
  have hne : b ++ '/' :: c ≠ [] := by
    rcases b with _ | _
    · simp
    · simp
  have hstrip : pyStrip (b ++ '/' :: c) = b ++ '/' :: c :=
    pyStrip_fraction b c hbne hb hcne hc
  have hsplit : pySplitWs (b ++ '/' :: c) = [b ++ '/' :: c] :=
    pySplitWs_single _ hne hall
  have hcont : (b ++ '/' :: c).contains '/' = true := List.elem_iff.2 (by simp)
  have hsep : pySplitOn '/' (b ++ '/' :: c) = [b, c] :=
    pySplitOn_pair '/' b c (no_slash_of_digits b hb) (no_slash_of_digits c hc)
  unfold parse_inch_fraction_try
  simp only [hstrip, hsplit, hcont, hsep, if_true]
  simp only [pyFloat_digits b hbne hb, pyFloat_digits c hcne hc, Option.bind_some]
  cases hdq : pyDivQ ((digitsVal b : ℚ)) ((digitsVal c : ℚ)) with
  | none => simp [hdq]
  | some v => simp [hdq]

/-- The `try` body on a `W N/D` input: whole part plus guarded quotient. -/
theorem parse_try_whole_fraction (a b c : List Char) (hane : a ≠ [])
    (ha : ∀ ch ∈ a, ch.isDigit = true) (hbne : b ≠ [])
    (hb : ∀ ch ∈ b, ch.isDigit = true) (hcne : c ≠ [])
    (hc : ∀ ch ∈ c, ch.isDigit = true) :
    parse_inch_fraction_try (a ++ ' ' :: (b ++ '/' :: c))
      = (pyDivQ (digitsVal b : ℚ) (digitsVal c : ℚ)).bind
          (fun fr => some ((digitsVal a : ℚ) + fr)) := by
  have hallb : ∀ ch ∈ b ++ '/' :: c, ch.isWhitespace = false := by
    intro ch hm
    rcases List.mem_append.1 hm with h | h
    · exact isDigit_not_ws ch (hb ch h)
    · rcases List.mem_cons.1 h with h | h
      · subst h; decide
      · exact isDigit_not_ws ch (hc ch h)
  have hneb : b ++ '/' :: c ≠ [] := by
    rcases b with _ | _ <;> simp
  have hstrip : pyStrip (a ++ ' ' :: (b ++ '/' :: c)) = a ++ ' ' :: (b ++ '/' :: c) := by
    refine pyStrip_eq_self _ ?_ ?_
    · intro ch hch
      rcases a with _ | ⟨x, xs⟩
      · exact absurd rfl hane
      · simp only [List.cons_append, List.head?_cons, Option.some.injEq] at hch
        exact isDigit_not_ws ch (hch ▸ ha x (by simp))
    · intro ch hch
      have hre : a ++ ' ' :: (b ++ '/' :: c) = (a ++ ' ' :: b ++ ['/']) ++ c := by
        simp
      rw [hre, List.getLast?_append] at hch
      rcases c with _ | ⟨y, ys⟩
      · exact absurd rfl hcne
      · have hcl : (y :: ys).getLast? = some ((y :: ys).getLast (by simp)) :=
          List.getLast?_eq_getLast _ _
        rw [hcl] at hch
        simp only [Option.or_some, Option.some.injEq] at hch
        exact isDigit_not_ws ch (hch ▸ hc _ (List.getLast_mem _))
  have hsplit : pySplitWs (a ++ ' ' :: (b ++ '/' :: c)) = [a, b ++ '/' :: c] :=
    pySplitWs_pair a (b ++ '/' :: c) hane (no_ws_of_digits a ha) hneb hallb
  have hcont : (b ++ '/' :: c).contains '/' = true := List.elem_iff.2 (by simp)
  have hsep : pySplitOn '/' (b ++ '/' :: c) = [b, c] :=
    pySplitOn_pair '/' b c (no_slash_of_digits b hb) (no_slash_of_digits c hc)
  unfold parse_inch_fraction_try
  simp only [hstrip, hsplit, hcont, hsep, if_true]
  simp only [pyFloat_digits a hane ha, pyFloat_digits b hbne hb,
    pyFloat_digits c hcne hc, Option.bind_some]
  cases hdq : pyDivQ ((digitsVal b : ℚ)) ((digitsVal c : ℚ)) with
  | none => simp [hdq]
  | some v => simp [hdq]

/-- The `try` body on a single slash-free token that `float()` accepts. -/
theorem parse_try_single (s : List Char) (v : ℚ)
    (hall : ∀ ch ∈ s, ch.isWhitespace = false)
    (hns : '/' ∉ s) (hv : pyFloat s = some v) :
    parse_inch_fraction_try s = some v := by
  have hne : s ≠ [] := by
    intro h
    subst h
    rw [(rfl : pyFloat [] = none)] at hv
    cases hv
  have hstrip : pyStrip s = s := by
    refine pyStrip_eq_self s ?_ ?_
    · intro ch hch
      exact hall ch (List.mem_of_mem_head? (by rw [hch]; rfl))
    · intro ch hch
      exact hall ch (List.mem_of_mem_getLast? hch)
  have hsplit : pySplitWs s = [s] := pySplitWs_single s hne hall
  have hcont : s.contains '/' = false := by
    cases hcc : s.contains '/'
    · rfl
    · exact absurd (List.elem_iff.1 hcc) hns
  unfold parse_inch_fraction_try
  simp only [hstrip, hsplit]
  rcases s with _ | ⟨x, xs⟩
  · exact absurd rfl hne
  · simp only [hcont, Bool.false_eq_true, if_false]
    exact hv

/-- Claim C9: `parse_inch_fraction` is total — every raised exception is
caught and turned into `0.0` — and on the documented input shapes it returns
the documented values: `W N/D` gives `W + N/D`, `N/D` gives `N/D`, a plain
decimal gives its value, and a zero denominator gives `0.0`. -/
theorem c9_parse_inch_fraction_spec :
    (∀ a b c : List Char, a ≠ [] → (∀ ch ∈ a, ch.isDigit = true) →
      b ≠ [] → (∀ ch ∈ b, ch.isDigit = true) →
      c ≠ [] → (∀ ch ∈ c, ch.isDigit = true) → (digitsVal c : ℚ) ≠ 0 →
      parse_inch_fraction (a ++ ' ' :: (b ++ '/' :: c))
        = (digitsVal a : ℚ) + (digitsVal b : ℚ) / (digitsVal c : ℚ)) ∧
    (∀ b c : List Char, b ≠ [] → (∀ ch ∈ b, ch.isDigit = true) →
      c ≠ [] → (∀ ch ∈ c, ch.isDigit = true) → (digitsVal c : ℚ) ≠ 0 →
      parse_inch_fraction (b ++ '/' :: c)
        = (digitsVal b : ℚ) / (digitsVal c : ℚ)) ∧
    (∀ (s : List Char) (v : ℚ), (∀ ch ∈ s, ch.isWhitespace = false) →
      '/' ∉ s → pyFloat s = some v → parse_inch_fraction s = v) ∧
    (∀ b c : List Char, b ≠ [] → (∀ ch ∈ b, ch.isDigit = true) →
      c ≠ [] → (∀ ch ∈ c, ch.isDigit = true) → (digitsVal c : ℚ) = 0 →
      parse_inch_fraction (b ++ '/' :: c) = 0) ∧
    (∀ s : List Char, parse_inch_fraction_try s = none →
      parse_inch_fraction s = 0) := by
  refine ⟨?_, ?_, ?_, ?_, ?_⟩
  · intro a b c hane ha hbne hb hcne hc hd
    unfold parse_inch_fraction
    rw [parse_try_whole_fraction a b c hane ha hbne hb hcne hc]
    unfold pyDivQ
    rw [if_neg hd]
    rfl
  · intro b c hbne hb hcne hc hd
    unfold parse_inch_fraction
    rw [parse_try_fraction b c hbne hb hcne hc]
    unfold pyDivQ
    rw [if_neg hd]
    rfl
  · intro s v hall hns hv
    unfold parse_inch_fraction
    rw [parse_try_single s v hall hns hv]
    rfl
  · intro b c hbne hb hcne hc hd
    unfold parse_inch_fraction
    rw [parse_try_fraction b c hbne hb hcne hc]
    unfold pyDivQ
    rw [if_pos hd]
    rfl
  · intro s h
    unfold parse_inch_fraction
    rw [h]
    rfl

/-- Witness for C9 at `"3 1/4"`, `"1/2"`, `"3.75"` and `"1/0"`. -/
theorem c9_parse_inch_fraction_spec_witness :
    parse_inch_fraction (['3'] ++ ' ' :: (['1'] ++ '/' :: ['4']))
      = (digitsVal ['3'] : ℚ) + (digitsVal ['1'] : ℚ) / (digitsVal ['4'] : ℚ) ∧
    parse_inch_fraction (['1'] ++ '/' :: ['2'])
      = (digitsVal ['1'] : ℚ) / (digitsVal ['2'] : ℚ) ∧
    parse_inch_fraction ['4'] = ((4 : ℕ) : ℚ) ∧
    parse_inch_fraction (['1'] ++ '/' :: ['0']) = 0 :=
  ⟨c9_parse_inch_fraction_spec.1 ['3'] ['1'] ['4'] (by decide) (by decide)
      (by decide) (by decide) (by decide) (by decide)
      (by rw [(by decide : digitsVal ['4'] = 4)]; norm_num),
   c9_parse_inch_fraction_spec.2.1 ['1'] ['2'] (by decide) (by decide)
      (by decide) (by decide)
      (by rw [(by decide : digitsVal ['2'] = 2)]; norm_num),
   c9_parse_inch_fraction_spec.2.2.1 ['4'] ((4 : ℕ) : ℚ) (by decide) (by decide)
      (by simp [pyFloat, pyFloatBody, pyFloatExp, pyStrip, digitsVal, digitVal]),
   c9_parse_inch_fraction_spec.2.2.2.1 ['1'] ['0'] (by decide) (by decide)
      (by decide) (by decide)
      (by rw [(by decide : digitsVal ['0'] = 0)]; norm_num)⟩

/-! ## Claim C8: binary64 lemmas -/

/-- The fuelled binary log meets its spec when the fuel covers the input. -/
theorem log2fuel_spec : ∀ fuel n : ℕ, 1 ≤ n → n ≤ fuel →
    2 ^ (log2fuel fuel n) ≤ n ∧ n < 2 ^ (log2fuel fuel n + 1) := by
  intro fuel
  induction fuel with
  | zero => intro n h1 h2; omega
  | succ fuel ih =>
    intro n h1 h2
    by_cases hn : n < 2
    · have : n = 1 := by omega
      subst this
      simp [log2fuel]
    · have h2' : n / 2 ≤ fuel := by omega
      have h1' : 1 ≤ n / 2 := by omega
      have := ih (n / 2) h1' h2'
      simp only [log2fuel, hn, if_neg, if_false]
      rcases this with ⟨hlo, hhi⟩
      constructor
      · rw [pow_succ]
        omega
      · rw [pow_succ] at hhi
        rw [pow_succ, pow_succ]
        omega

/-- `natLog2` spec: `2 ^ natLog2 n ≤ n < 2 ^ (natLog2 n + 1)` for `n ≥ 1`. -/
theorem natLog2_spec (n : ℕ) (h : 1 ≤ n) :
    2 ^ (natLog2 n) ≤ n ∧ n < 2 ^ (natLog2 n + 1) :=
  log2fuel_spec n n h le_rfl

/-- The fuelled ceiling binary log meets its spec for inputs of size ≥ 2. -/
theorem clog2fuel_spec : ∀ fuel n : ℕ, 2 ≤ n → n ≤ fuel →
    1 ≤ clog2fuel fuel n ∧
    2 ^ (clog2fuel fuel n - 1) < n ∧ n ≤ 2 ^ (clog2fuel fuel n) := by
  intro fuel
  induction fuel with
  | zero => intro n h1 h2; omega
  | succ fuel ih =>
    intro n h1 h2
    have hn : ¬(n ≤ 1) := by omega
    simp only [clog2fuel, hn, if_neg, if_false]
    by_cases hm : (n + 1) / 2 < 2
    · have hn2 : n = 2 := by omega
      subst hn2
      have : clog2fuel fuel 1 = 0 := by
        cases fuel <;> simp [clog2fuel]
      norm_num [this]
    · have h1' : 2 ≤ (n + 1) / 2 := by omega
      have h2' : (n + 1) / 2 ≤ fuel := by omega
      obtain ⟨hk1, hlo, hhi⟩ := ih ((n + 1) / 2) h1' h2'
      refine ⟨by omega, ?_, ?_⟩
      · have hrw : clog2fuel fuel ((n + 1) / 2) + 1 - 1
            = (clog2fuel fuel ((n + 1) / 2) - 1) + 1 := by omega
        rw [hrw, pow_succ]
        omega
      · rw [pow_succ]
        omega

/-- `natClog2` spec for `n ≥ 2`. -/
theorem natClog2_spec (n : ℕ) (h : 2 ≤ n) :
    1 ≤ natClog2 n ∧ 2 ^ (natClog2 n - 1) < n ∧ n ≤ 2 ^ (natClog2 n) :=
  clog2fuel_spec n n h le_rfl

/-- `expo` brackets every positive rational: `2 ^ expo x ≤ x < 2 ^ (expo x + 1)`. -/
theorem expo_spec (x : ℚ) (hx : 0 < x) :
    (2 : ℚ) ^ (expo x) ≤ x ∧ x < (2 : ℚ) ^ (expo x + 1) := by
  unfold expo
  by_cases h1 : 1 ≤ x
  · simp only [h1, if_pos]
    have hfl : 1 ≤ ⌊x⌋ := by
      rw [Int.le_floor]
      exact_mod_cast h1
    have hnn : ⌊x⌋.toNat = ⌊x⌋ := Int.toNat_of_nonneg (by omega)
    have hone : 1 ≤ ⌊x⌋.toNat := by omega
    obtain ⟨hlo, hhi⟩ := natLog2_spec ⌊x⌋.toNat hone
    constructor
    · rw [zpow_natCast]
      calc ((2 : ℚ) ^ natLog2 ⌊x⌋.toNat) ≤ (⌊x⌋.toNat : ℚ) := by exact_mod_cast hlo
      _ ≤ x := by
          rw [show ((⌊x⌋.toNat : ℚ)) = ((⌊x⌋ : ℚ)) from by exact_mod_cast congrArg Int.cast hnn]
          exact Int.floor_le x
    · have : x < (⌊x⌋ : ℚ) + 1 := Int.lt_floor_add_one x
      have hcast : ((⌊x⌋ : ℚ)) + 1 ≤ ((2 : ℚ) ^ (natLog2 ⌊x⌋.toNat + 1)) := by
        have : (⌊x⌋.toNat : ℤ) + 1 ≤ (2 : ℤ) ^ (natLog2 ⌊x⌋.toNat + 1) := by
          exact_mod_cast hhi
        rw [hnn] at this
        exact_mod_cast this
      have hz : ((2 : ℚ) ^ ((natLog2 ⌊x⌋.toNat : ℤ) + 1)) = (2 : ℚ) ^ (natLog2 ⌊x⌋.toNat + 1) := by
        rw [show (natLog2 ⌊x⌋.toNat : ℤ) + 1 = ((natLog2 ⌊x⌋.toNat + 1 : ℕ) : ℤ) from by push_cast; ring]
        exact zpow_natCast 2 _
      rw [hz]
      linarith
  · simp only [h1, if_neg, if_false]
    push_neg at h1
    have hy : 1 < x⁻¹ := (one_lt_inv_iff₀).2 ⟨hx, h1⟩
    have hm2 : 2 ≤ ⌈x⁻¹⌉ := by
      have : 1 < ⌈x⁻¹⌉ := by
        rw [Int.lt_ceil]
        exact_mod_cast hy
      omega
    have hnn : (⌈x⁻¹⌉.toNat : ℤ) = ⌈x⁻¹⌉ := Int.toNat_of_nonneg (by omega)
    have hm2n : 2 ≤ ⌈x⁻¹⌉.toNat := by omega
    obtain ⟨hk1, hlo, hhi⟩ := natClog2_spec ⌈x⁻¹⌉.toNat hm2n
    have hxinv : 0 < x⁻¹ := inv_pos.2 hx
    constructor
    · rw [zpow_neg, zpow_natCast]
      rw [inv_le_comm₀ (by positivity) hx]
      calc x⁻¹ ≤ ((⌈x⁻¹⌉ : ℚ)) := Int.le_ceil _
      _ ≤ (2 : ℚ) ^ (natClog2 ⌈x⁻¹⌉.toNat) := by
          rw [← hnn]
          exact_mod_cast hhi
    · have hlt : ((2 : ℚ) ^ (natClog2 ⌈x⁻¹⌉.toNat - 1)) < x⁻¹ := by
        have h2 : ((2 : ℕ) ^ (natClog2 ⌈x⁻¹⌉.toNat - 1) : ℤ) < ⌈x⁻¹⌉ := by
          rw [← hnn]
          exact_mod_cast hlo
        have := Int.lt_ceil.1 h2
        calc ((2 : ℚ) ^ (natClog2 ⌈x⁻¹⌉.toNat - 1))
            = (((2 : ℕ) ^ (natClog2 ⌈x⁻¹⌉.toNat - 1) : ℤ) : ℚ) := by push_cast; ring
        _ < x⁻¹ := this
      have hzeq : (-(natClog2 ⌈x⁻¹⌉.toNat : ℤ) + 1) = -((natClog2 ⌈x⁻¹⌉.toNat - 1 : ℕ) : ℤ) := by
        omega
      rw [hzeq, zpow_neg, zpow_natCast]
      rw [lt_inv_comm₀ hx (by positivity)]
      exact hlt

/-- The binary exponent is unique: any bracketing exponent is `expo x`. -/
theorem expo_unique (x : ℚ) (e : ℤ) (h1 : (2 : ℚ) ^ e ≤ x)
    (h2 : x < (2 : ℚ) ^ (e + 1)) : expo x = e := by
  have hx : 0 < x := lt_of_lt_of_le (by positivity) h1
  obtain ⟨hlo, hhi⟩ := expo_spec x hx
  by_contra hne
  rcases lt_or_gt_of_ne hne with hlt | hgt
  · have : (2 : ℚ) ^ (expo x + 1) ≤ (2 : ℚ) ^ e :=
      zpow_le_zpow_right₀ one_le_two (by omega)
    linarith
  · have : (2 : ℚ) ^ (e + 1) ≤ (2 : ℚ) ^ (expo x) :=
      zpow_le_zpow_right₀ one_le_two (by omega)
    linarith

/-- `roundEven` on an integer plus a fraction below one half rounds down. -/
theorem roundEven_add_small (m : ℤ) (f : ℚ) (h0 : 0 ≤ f) (h1 : f < 1 / 2) :
    roundEven ((m : ℚ) + f) = m := by
  unfold roundEven
  have hfl : ⌊(m : ℚ) + f⌋ = m := by
    rw [add_comm, Int.floor_add_int]
    rw [Int.floor_eq_zero_iff.2 ⟨h0, by linarith⟩]
    omega
  rw [hfl]
  rw [if_pos (by linarith)]

/-- `roundEven` on an integer plus a fraction above one half rounds up. -/
theorem roundEven_add_big (m : ℤ) (f : ℚ) (h0 : 1 / 2 < f) (h1 : f < 1) :
    roundEven ((m : ℚ) + f) = m + 1 := by
  unfold roundEven
  have hfl : ⌊(m : ℚ) + f⌋ = m := by
    rw [add_comm, Int.floor_add_int]
    rw [Int.floor_eq_zero_iff.2 ⟨by linarith, h1⟩]
    omega
  rw [hfl]
  rw [if_neg (by linarith)]
  rw [if_pos (by linarith)]

/-- `roundEven` of an exact half above an even integer rounds to it. -/
theorem roundEven_add_half_even (m : ℤ) (h : 2 ∣ m) :
    roundEven ((m : ℚ) + 1 / 2) = m := by
  unfold roundEven
  have hfl : ⌊(m : ℚ) + 1 / 2⌋ = m := by
    rw [add_comm, Int.floor_add_int]
    rw [Int.floor_eq_zero_iff.2 ⟨by norm_num, by norm_num⟩]
    omega
  rw [hfl]
  rw [if_neg (by linarith)]
  rw [if_neg (by linarith)]
  rw [if_pos h]

/-- `roundEven` of an exact half above an odd integer rounds away. -/
theorem roundEven_add_half_odd (m : ℤ) (h : ¬ 2 ∣ m) :
    roundEven ((m : ℚ) + 1 / 2) = m + 1 := by
  unfold roundEven
  have hfl : ⌊(m : ℚ) + 1 / 2⌋ = m := by
    rw [add_comm, Int.floor_add_int]
    rw [Int.floor_eq_zero_iff.2 ⟨by norm_num, by norm_num⟩]
    omega
  rw [hfl]
  rw [if_neg (by linarith)]
  rw [if_neg (by linarith)]
  rw [if_neg h]

/-- `RN` at a known binary exponent. -/
theorem RN_eq_at (x : ℚ) (e : ℤ) (h1 : (2 : ℚ) ^ e ≤ x)
    (h2 : x < (2 : ℚ) ^ (e + 1)) :
    RN x = (2 : ℚ) ^ (e - 52) * (roundEven (x / (2 : ℚ) ^ (e - 52)) : ℚ) := by
  have hx : 0 < x := lt_of_lt_of_le (by positivity) h1
  unfold RN RNpos
  rw [if_neg (ne_of_gt hx), if_pos hx, expo_unique x e h1 h2]

/-- `RN` fixes the integers below `2 ^ 53`. -/
theorem RN_int_fix (w : ℕ) (h1 : 0 < w) (h2 : w < 2 ^ 53) :
    RN (w : ℚ) = (w : ℚ) := by
  have hone : 1 ≤ w := h1
  obtain ⟨hlo, hhi⟩ := natLog2_spec w hone
  set L := natLog2 w with hL
  have hle : L ≤ 52 := by
    by_contra hgt
    have : 2 ^ 53 ≤ 2 ^ L := Nat.pow_le_pow_right (by norm_num) (by omega)
    omega
  have hq1 : (2 : ℚ) ^ (L : ℤ) ≤ (w : ℚ) := by
    rw [zpow_natCast]
    exact_mod_cast hlo
  have hq2 : (w : ℚ) < (2 : ℚ) ^ ((L : ℤ) + 1) := by
    rw [show (L : ℤ) + 1 = ((L + 1 : ℕ) : ℤ) from by push_cast; ring, zpow_natCast]
    exact_mod_cast hhi
  rw [RN_eq_at (w : ℚ) (L : ℤ) hq1 hq2]
  have hcomb : (2 : ℚ) ^ ((L : ℤ) - 52) * (2 : ℚ) ^ ((52 - L : ℕ) : ℤ) = 1 := by
    rw [← zpow_add₀ (two_ne_zero)]
    rw [show ((L : ℤ) - 52) + ((52 - L : ℕ) : ℤ) = 0 from by omega]
    rfl
  have hdiv : (w : ℚ) / (2 : ℚ) ^ ((L : ℤ) - 52)
      = ((w * 2 ^ (52 - L) : ℕ) : ℚ) := by
    rw [div_eq_iff (by positivity)]
    push_cast
    rw [← zpow_natCast (2 : ℚ) (52 - L), mul_assoc, ← zpow_add₀ (two_ne_zero)]
    rw [show (((52 - L : ℕ) : ℤ) + ((L : ℤ) - 52)) = 0 from by omega]
    ring
  rw [hdiv]
  rw [show ((w * 2 ^ (52 - L) : ℕ) : ℚ) = (((w * 2 ^ (52 - L) : ℕ) : ℤ) : ℚ) + 0 from by push_cast; ring]
  rw [roundEven_add_small _ 0 le_rfl (by norm_num)]
  rw [show (((w * 2 ^ (52 - L) : ℕ) : ℤ) : ℚ) = (w : ℚ) * (2 : ℚ) ^ ((52 - L : ℕ) : ℤ) from by
    rw [zpow_natCast]
    push_cast
    ring]
  rw [show (2 : ℚ) ^ ((L : ℤ) - 52) * ((w : ℚ) * (2 : ℚ) ^ ((52 - L : ℕ) : ℤ))
      = ((2 : ℚ) ^ ((L : ℤ) - 52) * (2 : ℚ) ^ ((52 - L : ℕ) : ℤ)) * (w : ℚ) from by ring]
  rw [hcomb]
  ring

/-- Scaling a natural by `2 ^ K` undoes the matching negative binary shift. -/
theorem zpow_mul_natPow_cancel (w : ℕ) (a : ℤ) (K : ℕ) (hK : (K : ℤ) = -a) :
    (2 : ℚ) ^ a * ((w * 2 ^ K : ℕ) : ℚ) = (w : ℚ) := by
  push_cast
  rw [← zpow_natCast (2 : ℚ) K, hK]
  rw [show (2 : ℚ) ^ a * ((w : ℚ) * (2 : ℚ) ^ (-a))
      = ((2 : ℚ) ^ a * (2 : ℚ) ^ (-a)) * (w : ℚ) from by ring]
  rw [← zpow_add₀ (two_ne_zero), add_neg_cancel]
  ring

/-- Dividing a natural by a negative binary power is scaling by `2 ^ K`. -/
theorem natCast_div_zpow (w : ℕ) (a : ℤ) (K : ℕ) (hK : (K : ℤ) = -a) :
    (w : ℚ) / (2 : ℚ) ^ a = ((w * 2 ^ K : ℕ) : ℚ) := by
  rw [div_eq_iff (by positivity)]
  push_cast
  rw [← zpow_natCast (2 : ℚ) K, hK]
  rw [mul_assoc, ← zpow_add₀ (two_ne_zero), neg_add_cancel]
  ring

/-- Quotient of two binary powers. -/
theorem zpow_div_zpow (a b : ℤ) :
    (2 : ℚ) ^ a / (2 : ℚ) ^ b = (2 : ℚ) ^ (a - b) := by
  rw [zpow_sub₀ (two_ne_zero)]

/-- Rounding `w - 2 ^ (e-50)` recovers `w` when `w/12` lives at binary
exponent `e ≤ 48`: the hard "round down then ties-to-even" case. -/
theorem RN_sub_delta (w : ℕ) (e : ℤ) (he : e ≤ 48)
    (h1 : 3 * (2 : ℚ) ^ (e + 2) ≤ (w : ℚ))
    (h2 : (w : ℚ) < 3 * (2 : ℚ) ^ (e + 3)) :
    RN ((w : ℚ) - (2 : ℚ) ^ (e - 50)) = (w : ℚ) := by
  have hδpos : (0 : ℚ) < (2 : ℚ) ^ (e - 50) := by positivity
  have hδlt : (2 : ℚ) ^ (e - 50) < (2 : ℚ) ^ (e + 2) :=
    zpow_lt_zpow_right₀ one_lt_two (by omega)
  have hp23 : (2 : ℚ) ^ (e + 3) = 2 * (2 : ℚ) ^ (e + 2) := by
    rw [show e + 3 = 1 + (e + 2) from by ring, zpow_add₀ (two_ne_zero)]
    norm_num
  have hp4 : (2 : ℚ) ^ (e + 4) = 2 * (2 : ℚ) ^ (e + 3) := by
    rw [show e + 4 = 1 + (e + 3) from by ring, zpow_add₀ (two_ne_zero)]
    norm_num
  have hp5 : (2 : ℚ) ^ (e + 5) = 2 * (2 : ℚ) ^ (e + 4) := by
    rw [show e + 5 = 1 + (e + 4) from by ring, zpow_add₀ (two_ne_zero)]
    norm_num
  have hlow : (2 : ℚ) ^ (e + 3) < (w : ℚ) - (2 : ℚ) ^ (e - 50) := by
    rw [hp23]
    linarith
  rcases lt_or_le ((w : ℚ) - (2 : ℚ) ^ (e - 50)) ((2 : ℚ) ^ (e + 4)) with hlt | hge
  · -- binary exponent e + 3: grid spacing 2δ, exact tie at an odd point
    have hrn := RN_eq_at ((w : ℚ) - (2 : ℚ) ^ (e - 50)) (e + 3) (le_of_lt hlow)
      (by rw [show e + 3 + 1 = e + 4 from by ring]; exact hlt)
    rw [show e + 3 - 52 = e - 49 from by ring] at hrn
    have hK1 : (((49 - e).toNat : ℤ)) = -(e - 49) := by omega
    have hqw : (w : ℚ) / (2 : ℚ) ^ (e - 49)
        = ((w * 2 ^ (49 - e).toNat : ℕ) : ℚ) := natCast_div_zpow w (e - 49) _ hK1
    have hqδ : (2 : ℚ) ^ (e - 50) / (2 : ℚ) ^ (e - 49) = 1 / 2 := by
      rw [zpow_div_zpow]
      norm_num [show e - 50 - (e - 49) = -1 from by ring]
    have hdivx : ((w : ℚ) - (2 : ℚ) ^ (e - 50)) / (2 : ℚ) ^ (e - 49)
        = (((w * 2 ^ (49 - e).toNat : ℕ) : ℤ) - 1 : ℤ) + (1 : ℚ) / 2 := by
      rw [sub_div, hqw, hqδ]
      push_cast
      ring
    have hK1pos : 1 ≤ (49 - e).toNat := by omega
    have heven : (2 : ℤ) ∣ ((w * 2 ^ (49 - e).toNat : ℕ) : ℤ) := by
      have : (2 : ℕ) ∣ w * 2 ^ (49 - e).toNat :=
        Dvd.dvd.mul_left (dvd_pow_self 2 (by omega)) w
      exact_mod_cast this
    have hodd : ¬(2 : ℤ) ∣ (((w * 2 ^ (49 - e).toNat : ℕ) : ℤ) - 1) := by
      omega
    rw [hrn, hdivx, show (((w * 2 ^ (49 - e).toNat : ℕ) : ℤ) - 1 : ℤ) + (1 : ℚ) / 2
      = ((((w * 2 ^ (49 - e).toNat : ℕ) : ℤ) - 1 : ℤ) : ℚ) + 1 / 2 from by push_cast; ring]
    rw [roundEven_add_half_odd _ hodd]
    rw [show ((w * 2 ^ (49 - e).toNat : ℕ) : ℤ) - 1 + 1 = ((w * 2 ^ (49 - e).toNat : ℕ) : ℤ) from by ring]
    rw [show ((((w * 2 ^ (49 - e).toNat : ℕ) : ℤ)) : ℚ) = ((w * 2 ^ (49 - e).toNat : ℕ) : ℚ) from by push_cast; ring]
    exact zpow_mul_natPow_cancel w (e - 49) _ hK1
  · -- binary exponent e + 4: grid spacing 4δ, plain round up from 3/4
    have hhi5 : (w : ℚ) - (2 : ℚ) ^ (e - 50) < (2 : ℚ) ^ (e + 4 + 1) := by
      rw [show e + 4 + 1 = e + 5 from by ring, hp5, hp4]
      nlinarith
    have hrn := RN_eq_at ((w : ℚ) - (2 : ℚ) ^ (e - 50)) (e + 4) hge hhi5
    rw [show e + 4 - 52 = e - 48 from by ring] at hrn
    have hK2 : (((48 - e).toNat : ℤ)) = -(e - 48) := by omega
    have hqw : (w : ℚ) / (2 : ℚ) ^ (e - 48)
        = ((w * 2 ^ (48 - e).toNat : ℕ) : ℚ) := natCast_div_zpow w (e - 48) _ hK2
    have hqδ : (2 : ℚ) ^ (e - 50) / (2 : ℚ) ^ (e - 48) = 1 / 4 := by
      rw [zpow_div_zpow]
      rw [show e - 50 - (e - 48) = -2 from by ring]
      norm_num [zpow_neg]
    have hdivx : ((w : ℚ) - (2 : ℚ) ^ (e - 50)) / (2 : ℚ) ^ (e - 48)
        = ((((w * 2 ^ (48 - e).toNat : ℕ) : ℤ) - 1 : ℤ) : ℚ) + 3 / 4 := by
      rw [sub_div, hqw, hqδ]
      push_cast
      ring
    rw [hrn, hdivx]
    rw [roundEven_add_big _ _ (by norm_num) (by norm_num)]
    rw [show ((w * 2 ^ (48 - e).toNat : ℕ) : ℤ) - 1 + 1 = ((w * 2 ^ (48 - e).toNat : ℕ) : ℤ) from by ring]
    rw [show ((((w * 2 ^ (48 - e).toNat : ℕ) : ℤ)) : ℚ) = ((w * 2 ^ (48 - e).toNat : ℕ) : ℚ) from by push_cast; ring]
    exact zpow_mul_natPow_cancel w (e - 48) _ hK2

/-- Rounding `w + 2 ^ (e-50)` recovers `w` when `w/12` lives at binary
exponent `e ≤ 48`: the "round down across an even tie" case. -/
theorem RN_add_delta (w : ℕ) (e : ℤ) (he : e ≤ 48)
    (h1 : 3 * (2 : ℚ) ^ (e + 2) ≤ (w : ℚ))
    (h2 : (w : ℚ) < 3 * (2 : ℚ) ^ (e + 3)) :
    RN ((w : ℚ) + (2 : ℚ) ^ (e - 50)) = (w : ℚ) := by
  have hδpos : (0 : ℚ) < (2 : ℚ) ^ (e - 50) := by positivity
  have hδlt : (2 : ℚ) ^ (e - 50) < (2 : ℚ) ^ (e + 3) :=
    zpow_lt_zpow_right₀ one_lt_two (by omega)
  have hp23 : (2 : ℚ) ^ (e + 3) = 2 * (2 : ℚ) ^ (e + 2) := by
    rw [show e + 3 = 1 + (e + 2) from by ring, zpow_add₀ (two_ne_zero)]
    norm_num
  have hp4 : (2 : ℚ) ^ (e + 4) = 2 * (2 : ℚ) ^ (e + 3) := by
    rw [show e + 4 = 1 + (e + 3) from by ring, zpow_add₀ (two_ne_zero)]
    norm_num
  have hp5 : (2 : ℚ) ^ (e + 5) = 2 * (2 : ℚ) ^ (e + 4) := by
    rw [show e + 5 = 1 + (e + 4) from by ring, zpow_add₀ (two_ne_zero)]
    norm_num
  have hlow : (2 : ℚ) ^ (e + 3) < (w : ℚ) + (2 : ℚ) ^ (e - 50) := by
    rw [hp23]
    linarith
  rcases lt_or_le ((w : ℚ) + (2 : ℚ) ^ (e - 50)) ((2 : ℚ) ^ (e + 4)) with hlt | hge
  · -- binary exponent e + 3: exact tie at an even point rounds back down
    have hrn := RN_eq_at ((w : ℚ) + (2 : ℚ) ^ (e - 50)) (e + 3) (le_of_lt hlow)
      (by rw [show e + 3 + 1 = e + 4 from by ring]; exact hlt)
    rw [show e + 3 - 52 = e - 49 from by ring] at hrn
    have hK1 : (((49 - e).toNat : ℤ)) = -(e - 49) := by omega
    have hqw : (w : ℚ) / (2 : ℚ) ^ (e - 49)
        = ((w * 2 ^ (49 - e).toNat : ℕ) : ℚ) := natCast_div_zpow w (e - 49) _ hK1
    have hqδ : (2 : ℚ) ^ (e - 50) / (2 : ℚ) ^ (e - 49) = 1 / 2 := by
      rw [zpow_div_zpow]
      norm_num [show e - 50 - (e - 49) = -1 from by ring]
    have hdivx : ((w : ℚ) + (2 : ℚ) ^ (e - 50)) / (2 : ℚ) ^ (e - 49)
        = (((w * 2 ^ (49 - e).toNat : ℕ) : ℤ) : ℚ) + (1 : ℚ) / 2 := by
      rw [add_div, hqw, hqδ]
      push_cast
      ring
    have heven : (2 : ℤ) ∣ ((w * 2 ^ (49 - e).toNat : ℕ) : ℤ) := by
      have : (2 : ℕ) ∣ w * 2 ^ (49 - e).toNat :=
        Dvd.dvd.mul_left (dvd_pow_self 2 (by omega)) w
      exact_mod_cast this
    rw [hrn, hdivx]
    rw [roundEven_add_half_even _ heven]
    rw [show ((((w * 2 ^ (49 - e).toNat : ℕ) : ℤ)) : ℚ) = ((w * 2 ^ (49 - e).toNat : ℕ) : ℚ) from by push_cast; ring]
    exact zpow_mul_natPow_cancel w (e - 49) _ hK1
  · -- binary exponent e + 4: plain round down from 1/4
    have hhi5 : (w : ℚ) + (2 : ℚ) ^ (e - 50) < (2 : ℚ) ^ (e + 4 + 1) := by
      rw [show e + 4 + 1 = e + 5 from by ring, hp5, hp4]
      nlinarith
    have hrn := RN_eq_at ((w : ℚ) + (2 : ℚ) ^ (e - 50)) (e + 4) hge hhi5
    rw [show e + 4 - 52 = e - 48 from by ring] at hrn
    have hK2 : (((48 - e).toNat : ℤ)) = -(e - 48) := by omega
    have hqw : (w : ℚ) / (2 : ℚ) ^ (e - 48)
        = ((w * 2 ^ (48 - e).toNat : ℕ) : ℚ) := natCast_div_zpow w (e - 48) _ hK2
    have hqδ : (2 : ℚ) ^ (e - 50) / (2 : ℚ) ^ (e - 48) = 1 / 4 := by
      rw [zpow_div_zpow]
      rw [show e - 50 - (e - 48) = -2 from by ring]
      norm_num [zpow_neg]
    have hdivx : ((w : ℚ) + (2 : ℚ) ^ (e - 50)) / (2 : ℚ) ^ (e - 48)
        = (((w * 2 ^ (48 - e).toNat : ℕ) : ℤ) : ℚ) + 1 / 4 := by
      rw [add_div, hqw, hqδ]
      push_cast
      ring
    rw [hrn, hdivx]
    rw [roundEven_add_small _ _ (by norm_num) (by norm_num)]
    rw [show ((((w * 2 ^ (48 - e).toNat : ℕ) : ℤ)) : ℚ) = ((w * 2 ^ (48 - e).toNat : ℕ) : ℚ) from by push_cast; ring]
    exact zpow_mul_natPow_cancel w (e - 48) _ hK2

/-- Core of C8: for whole-inch `w` below `3·2^51`, converting to feet in
binary64 and back with `int(width*12)` returns exactly `w`. -/
theorem widthFeet64_roundTrip (w : ℕ) (h1 : 0 < w) (h2 : w < 3 * 2 ^ 51) :
    typeNameInches (widthFeet64 w) = (w : ℤ) := by
  have h53 : w < 2 ^ 53 := by
    have : (3 : ℕ) * 2 ^ 51 < 2 ^ 53 := by norm_num
    omega
  unfold typeNameInches widthFeet64 pyMul64 pyDiv64 pyFloat64OfNat
  rw [RN_int_fix w h1 h53]
  have hq0 : (0 : ℚ) < (w : ℚ) / 12 := by positivity
  obtain ⟨hblo, hbhi⟩ := expo_spec ((w : ℚ) / 12) hq0
  set e := expo ((w : ℚ) / 12) with hedef
  have hqlt : (w : ℚ) / 12 < (2 : ℚ) ^ (49 : ℤ) := by
    have hwq : (w : ℚ) < 3 * 2 ^ 51 := by exact_mod_cast h2
    rw [div_lt_iff₀ (by norm_num)]
    have h4912 : ((2 : ℚ) ^ (49 : ℤ)) * 12 = 3 * 2 ^ 51 := by
      rw [show ((49 : ℤ)) = ((49 : ℕ) : ℤ) from by norm_num, zpow_natCast]
      norm_num
    rw [h4912]
    exact hwq
  have he48 : e ≤ 48 := by
    by_contra hgt
    have : (2 : ℚ) ^ (49 : ℤ) ≤ (2 : ℚ) ^ e :=
      zpow_le_zpow_right₀ one_le_two (by omega)
    linarith
  have hw_lo : 3 * (2 : ℚ) ^ (e + 2) ≤ (w : ℚ) := by
    have h12 : (2 : ℚ) ^ e * 12 ≤ (w : ℚ) := (le_div_iff₀ (by norm_num)).1 hblo
    have : 3 * (2 : ℚ) ^ (e + 2) = (2 : ℚ) ^ e * 12 := by
      rw [zpow_add₀ (two_ne_zero)]
      norm_num
      ring
    linarith
  have hw_hi : (w : ℚ) < 3 * (2 : ℚ) ^ (e + 3) := by
    have h12 : (w : ℚ) < (2 : ℚ) ^ (e + 1) * 12 := (div_lt_iff₀ (by norm_num)).1 hbhi
    have : 3 * (2 : ℚ) ^ (e + 3) = (2 : ℚ) ^ (e + 1) * 12 := by
      rw [show e + 3 = (e + 1) + 2 from by ring, zpow_add₀ (two_ne_zero)]
      norm_num
      ring
    linarith
  set K := (50 - e).toNat with hKdef
  have hKz : ((K : ℕ) : ℤ) = 50 - e := by
    rw [hKdef]
    omega
  set N := w * 2 ^ K with hNdef
  have hA : (w : ℚ) / 12 / (2 : ℚ) ^ (e - 52) = ((N : ℕ) : ℚ) / 3 := by
    rw [div_div, div_eq_div_iff (by positivity) (by norm_num)]
    rw [hNdef]
    push_cast
    rw [← zpow_natCast (2 : ℚ) K]
    rw [show (w : ℚ) * 3 = (w : ℚ) * 3 from rfl]
    rw [show (w : ℚ) * ((2 : ℚ) ^ ((K : ℕ) : ℤ)) * (12 * (2 : ℚ) ^ (e - 52))
        = (w : ℚ) * 12 * ((2 : ℚ) ^ ((K : ℕ) : ℤ) * (2 : ℚ) ^ (e - 52)) from by ring]
    rw [← zpow_add₀ (two_ne_zero)]
    rw [show ((K : ℕ) : ℤ) + (e - 52) = -2 from by omega]
    rw [show ((2 : ℚ) ^ (-2 : ℤ)) = 1 / 4 from by norm_num [zpow_neg]]
    ring
  have hrnq := RN_eq_at ((w : ℚ) / 12) e hblo hbhi
  rw [hA] at hrnq
  have hcancel4 : (2 : ℚ) ^ (e - 52) * ((N : ℕ) : ℚ) * 4 = (w : ℚ) := by
    rw [hNdef]
    push_cast
    rw [← zpow_natCast (2 : ℚ) K]
    rw [show (2 : ℚ) ^ (e - 52) * ((w : ℚ) * (2 : ℚ) ^ ((K : ℕ) : ℤ)) * 4
        = ((2 : ℚ) ^ (e - 52) * (2 : ℚ) ^ ((K : ℕ) : ℤ) * 4) * (w : ℚ) from by ring]
    rw [← zpow_add₀ (two_ne_zero)]
    rw [show (e - 52) + ((K : ℕ) : ℤ) = -2 from by omega]
    rw [show ((2 : ℚ) ^ (-2 : ℤ)) = 1 / 4 from by norm_num [zpow_neg]]
    ring
  have hδ4 : (2 : ℚ) ^ (e - 52) * 4 = (2 : ℚ) ^ (e - 50) := by
    rw [show (4 : ℚ) = (2 : ℚ) ^ ((2 : ℕ) : ℤ) from by norm_num]
    rw [← zpow_add₀ (two_ne_zero)]
    congr 1
    omega
  have hfinal : ∀ v : ℕ, 0 < v → v < 2 ^ 53 →
      pyInt (RN ((v : ℚ))) = (v : ℤ) := by
    intro v hv0 hv53
    rw [RN_int_fix v hv0 hv53]
    unfold pyInt
    rw [if_pos (by positivity)]
    exact_mod_cast Int.floor_natCast v
  have hpyInt : ∀ v : ℕ, pyInt ((v : ℚ)) = (v : ℤ) := by
    intro v
    unfold pyInt
    rw [if_pos (by positivity)]
    exact_mod_cast Int.floor_natCast v
  rcases (show N % 3 = 0 ∨ N % 3 = 1 ∨ N % 3 = 2 from by omega) with hm | hm | hm
  · -- exact division: w/12 is representable, the product returns w itself
    set t := N / 3 with htdef
    have hN3 : N = 3 * t := by omega
    have hre : roundEven ((N : ℚ) / 3) = ((t : ℕ) : ℤ) := by
      rw [show ((N : ℚ)) / 3 = (((t : ℕ) : ℤ) : ℚ) + 0 from by
        rw [hN3]; push_cast; ring]
      exact roundEven_add_small _ 0 le_rfl (by norm_num)
    rw [hrnq, hre]
    have hd : (2 : ℚ) ^ (e - 52) * ((((t : ℕ) : ℤ)) : ℚ) * 12 = (w : ℚ) := by
      have h4 := hcancel4
      rw [hN3] at h4
      push_cast at h4 ⊢
      linear_combination h4
    rw [hd]
    exact hfinal w h1 h53
  · -- the quotient rounds down; the product rounds back up to w
    set t := N / 3 with htdef
    have hN3 : N = 3 * t + 1 := by omega
    have hre : roundEven ((N : ℚ) / 3) = ((t : ℕ) : ℤ) := by
      rw [show ((N : ℚ)) / 3 = (((t : ℕ) : ℤ) : ℚ) + 1 / 3 from by
        rw [hN3]; push_cast; ring]
      exact roundEven_add_small _ (1 / 3) (by norm_num) (by norm_num)
    rw [hrnq, hre]
    have hd : (2 : ℚ) ^ (e - 52) * ((((t : ℕ) : ℤ)) : ℚ) * 12
        = (w : ℚ) - (2 : ℚ) ^ (e - 50) := by
      have h4 := hcancel4
      rw [hN3] at h4
      push_cast at h4 ⊢
      linear_combination h4 - hδ4
    rw [hd, RN_sub_delta w e he48 hw_lo hw_hi]
    exact hpyInt w
  · -- the quotient rounds up; the product rounds back down to w
    set t := N / 3 with htdef
    have hN3 : N = 3 * t + 2 := by omega
    have hre : roundEven ((N : ℚ) / 3) = ((t : ℕ) : ℤ) + 1 := by
      rw [show ((N : ℚ)) / 3 = (((t : ℕ) : ℤ) : ℚ) + 2 / 3 from by
        rw [hN3]; push_cast; ring]
      exact roundEven_add_big _ (2 / 3) (by norm_num) (by norm_num)
    rw [hrnq, hre]
    have hd : (2 : ℚ) ^ (e - 52) * (((((t : ℕ) : ℤ) + 1 : ℤ)) : ℚ) * 12
        = (w : ℚ) + (2 : ℚ) ^ (e - 50) := by
      have h4 := hcancel4
      rw [hN3] at h4
      push_cast at h4 ⊢
      linear_combination h4 + hδ4
    rw [hd, RN_add_delta w e he48 hw_lo hw_hi]
    exact hpyInt w

/-- Counterexample to claim C8 as stated: for the whole-inch width
`6755399441055745 = 3·2^51 + 1`, binary64 double rounding lands exactly on a
tie that breaks to even, and `int(width*12)` returns `6755399441055746`, so
the generated type name is not the original inch integers joined by `x`. -/
theorem c8_counterexample :
    typeNameInches (widthFeet64 6755399441055745) = 6755399441055746 ∧
    typeName64 (widthFeet64 6755399441055745) (widthFeet64 6755399441055745)
      ≠ toString (6755399441055745 : ℕ) ++ "x" ++ toString (6755399441055745 : ℕ) := by
  have hRNw : RN ((6755399441055745 : ℕ) : ℚ) = ((6755399441055745 : ℕ) : ℚ) :=
    RN_int_fix _ (by norm_num) (by norm_num)
  have hq1 : (2 : ℚ) ^ (49 : ℤ) ≤ ((6755399441055745 : ℕ) : ℚ) / 12 := by
    rw [show ((49 : ℤ)) = ((49 : ℕ) : ℤ) from by norm_num, zpow_natCast]
    rw [le_div_iff₀ (by norm_num)]
    norm_num
  have hq2 : ((6755399441055745 : ℕ) : ℚ) / 12 < (2 : ℚ) ^ ((49 : ℤ) + 1) := by
    rw [show ((49 : ℤ) + 1) = ((50 : ℕ) : ℤ) from by norm_num, zpow_natCast]
    rw [div_lt_iff₀ (by norm_num)]
    norm_num
  have hrnq := RN_eq_at (((6755399441055745 : ℕ) : ℚ) / 12) 49 hq1 hq2
  have hdiv : ((6755399441055745 : ℕ) : ℚ) / 12 / (2 : ℚ) ^ ((49 : ℤ) - 52)
      = ((4503599627370496 : ℤ) : ℚ) + 2 / 3 := by
    rw [show ((49 : ℤ) - 52) = -((3 : ℕ) : ℤ) from by norm_num, zpow_neg, zpow_natCast]
    rw [show (((2 : ℚ) ^ (3 : ℕ))⁻¹) = 1 / 8 from by norm_num]
    norm_num
  have hre : roundEven (((4503599627370496 : ℤ) : ℚ) + 2 / 3) = 4503599627370497 := by
    rw [roundEven_add_big _ _ (by norm_num) (by norm_num)]
    norm_num
  have hRNq : RN (((6755399441055745 : ℕ) : ℚ) / 12)
      = (2 : ℚ) ^ ((49 : ℤ) - 52) * ((4503599627370497 : ℤ) : ℚ) := by
    rw [hrnq, hdiv, hre]
  have hprod : (2 : ℚ) ^ ((49 : ℤ) - 52) * ((4503599627370497 : ℤ) : ℚ) * 12
      = ((6755399441055745 : ℤ) : ℚ) + 1 / 2 := by
    rw [show ((49 : ℤ) - 52) = -((3 : ℕ) : ℤ) from by norm_num, zpow_neg, zpow_natCast]
    norm_num
  have hx1 : (2 : ℚ) ^ (52 : ℤ) ≤ ((6755399441055745 : ℤ) : ℚ) + 1 / 2 := by
    rw [show ((52 : ℤ)) = ((52 : ℕ) : ℤ) from by norm_num, zpow_natCast]
    norm_num
  have hx2 : ((6755399441055745 : ℤ) : ℚ) + 1 / 2 < (2 : ℚ) ^ ((52 : ℤ) + 1) := by
    rw [show ((52 : ℤ) + 1) = ((53 : ℕ) : ℤ) from by norm_num, zpow_natCast]
    norm_num
  have hrn2 := RN_eq_at (((6755399441055745 : ℤ) : ℚ) + 1 / 2) 52 hx1 hx2
  have hdiv2 : (((6755399441055745 : ℤ) : ℚ) + 1 / 2) / (2 : ℚ) ^ ((52 : ℤ) - 52)
      = ((6755399441055745 : ℤ) : ℚ) + 1 / 2 := by
    rw [show ((52 : ℤ) - 52) = 0 from by norm_num, zpow_zero, div_one]
  have hodd : ¬(2 : ℤ) ∣ 6755399441055745 := by decide
  have hre2 : roundEven (((6755399441055745 : ℤ) : ℚ) + 1 / 2) = 6755399441055746 := by
    rw [roundEven_add_half_odd _ hodd]
    norm_num
  have hnum : typeNameInches (widthFeet64 6755399441055745) = 6755399441055746 := by
    unfold typeNameInches widthFeet64 pyMul64 pyDiv64 pyFloat64OfNat
    rw [hRNw, hRNq, hprod, hrn2, hdiv2, hre2]
    rw [show ((52 : ℤ) - 52) = 0 from by norm_num, zpow_zero, one_mul]
    unfold pyInt
    rw [if_pos (by norm_num)]
    rw [show (((6755399441055746 : ℤ)) : ℚ) = (((6755399441055746 : ℤ)) : ℚ) from rfl]
    exact_mod_cast Int.floor_intCast (6755399441055746 : ℤ)
  refine ⟨hnum, ?_⟩
  unfold typeName64
  rw [hnum]
  decide

/-- Claim C8 as amended: for whole-inch widths and heights below `3·2^51`
(far beyond any physical door), the binary64 feet conversion and
`int(width*12)` round-trip is the identity, and the generated type name is
exactly the inch integers joined by `x`. -/
theorem c8_type_name_round_trip (w h : ℕ) (hw0 : 0 < w) (hw : w < 3 * 2 ^ 51)
    (hh0 : 0 < h) (hh : h < 3 * 2 ^ 51) :
    typeName64 (widthFeet64 w) (widthFeet64 h)
      = toString w ++ "x" ++ toString h := by
  unfold typeName64
  rw [widthFeet64_roundTrip w hw0 hw, widthFeet64_roundTrip h hh0 hh]
  rfl

/-- Witness for the amended C8 at a 36 in × 84 in door. -/
theorem c8_type_name_round_trip_witness :
    0 < 36 ∧ 36 < 3 * 2 ^ 51 ∧ 0 < 84 ∧ 84 < 3 * 2 ^ 51 ∧
    typeName64 (widthFeet64 36) (widthFeet64 84)
      = toString (36 : ℕ) ++ "x" ++ toString (84 : ℕ) :=
  ⟨by decide, by decide, by decide, by decide,
   c8_type_name_round_trip 36 84 (by decide) (by decide) (by decide) (by decide)⟩
